import Mathlib

/-!
Verification of the invoice-reconciliation engine of this repository
(src/src/invoice_matching/core/*): data model (models.py), matcher
(matcher.py), MT940 parser (mt940_parser.py), transaction filter
(transaction_filter.py), MT940 generator (mt940_generator.py) and upload
package assembler (upload_data_generator.py).

Modelling conventions:
- Python strings are modelled as `List Char` (`Str`); `str.lower()` /
  `str.upper()` as `Char.toLower` / `Char.toUpper` maps (ASCII, which is
  all the repository's data uses); the substring test `a in b` as list
  infix.
- `Decimal` amounts are modelled as integer euro-cents (`Int`): the
  repository formats every amount with exactly two fraction digits, and
  cent amounts make that formatting exact, as `Decimal` is in Python.
- `datetime` is modelled as a `Date` record ordered lexicographically by
  (year, month, day), which is how Python compares datetimes.
- `float` statistics (`confidence_score`, `match_rate`) are modelled as
  exact rationals `ℚ`; the claims under study only involve values
  (0, 1, 100, ratios) whose float computation is not at issue.
- Functions with side effects are modelled as returning a list of
  file-system effects next to their result; Python exceptions are
  modelled with `Except`.
-/

abbrev Str := List Char

def lowerS (s : Str) : Str := s.map Char.toLower

def upperS (s : Str) : Str := s.map Char.toUpper

/-- Python `pat in s` (substring containment) on strings. -/
def substrB (pat s : Str) : Bool := decide (pat <:+: s)

/-- Python `str.strip()`: drop leading and trailing whitespace. -/
def isWsB (c : Char) : Bool := c = ' ' || c = '\t' || c = '\n' || c = '\r'

def stripWs (s : Str) : Str :=
  ((s.dropWhile isWsB).reverse.dropWhile isWsB).reverse

/-- Calendar date (model of `datetime`); ordering is lexicographic. -/
structure Date where
  year : Nat
  month : Nat
  day : Nat
deriving DecidableEq

/-- Python datetime `<` (lexicographic). -/
def dateLt (a b : Date) : Prop :=
  a.year < b.year ∨ (a.year = b.year ∧
    (a.month < b.month ∨ (a.month = b.month ∧ a.day < b.day)))

/-- Python datetime `≤` (lexicographic). -/
def dateLe (a b : Date) : Prop :=
  a.year < b.year ∨ (a.year = b.year ∧
    (a.month < b.month ∨ (a.month = b.month ∧ a.day ≤ b.day)))

instance (a b : Date) : Decidable (dateLt a b) := by unfold dateLt; infer_instance

instance (a b : Date) : Decidable (dateLe a b) := by unfold dateLe; infer_instance

def dateLtB (a b : Date) : Bool := decide (dateLt a b)

theorem dateLe_refl (a : Date) : dateLe a a := by unfold dateLe; omega

theorem dateLe_trans {a b c : Date} (h1 : dateLe a b) (h2 : dateLe b c) : dateLe a c := by
  unfold dateLe at *; omega

theorem dateLe_of_ltB {a b : Date} (h : dateLtB a b = true) : dateLe a b := by
  unfold dateLtB dateLt at h
  unfold dateLe
  simp only [decide_eq_true_eq] at h
  omega

theorem dateLe_of_not_ltB {a b : Date} (h : dateLtB a b = false) : dateLe b a := by
  unfold dateLtB dateLt at h
  unfold dateLe
  simp only [decide_eq_false_iff_not] at h
  omega

/-- Bank transaction record (models.py `Transaction` as actually
constructed by mt940_parser.py lines 134-143 and consumed by
transaction_filter.py and mt940_generator.py, i.e. including the three
optional SEPA sub-fields).  The field list *declared* in models.py is
recorded separately in `transactionInitFields` below; see the analysis of
that discrepancy accompanying `transactionInitAccepts`. -/
structure Transaction where
  amount : Int
  description : Str
  date : Date
  reference : Str
  account : Option Str := none
  counterparty_name : Option Str := none
  remittance_info : Option Str := none
  counterparty_iban : Option Str := none
deriving DecidableEq

/-- Invoice candidate (models.py `Invoice`). -/
structure Invoice where
  invoice_number : Str
  file_path : Str
  amount : Option Int := none
  date : Option Date := none
  description : Option Str := none
  vendor : Option Str := none
deriving DecidableEq

/-- models.py `MatchResult`. -/
structure MatchResult where
  transaction : Transaction
  invoice : Invoice
  confidence_score : ℚ
  amount_difference : Int
  match_reasons : List Str
deriving DecidableEq

/-- models.py `MatchingSummary` (the data fields). -/
structure MatchingSummary where
  matched_pairs : List MatchResult
  unmatched_transactions : List Transaction
  unmatched_invoices : List Invoice
  total_transactions : Int
  total_invoices : Int
  match_rate : ℚ
  total_matched_amount : Int
deriving DecidableEq

/-- models.py `MatchingSummary.__post_init__`: constructing a summary
raises `ValueError` when `len(unmatched_transactions)` differs from
`total_transactions - len(matched_pairs)`; nothing else is validated. -/
def mkMatchingSummary (mp : List MatchResult) (ut : List Transaction)
    (ui : List Invoice) (tt ti : Int) (mr : ℚ) (tma : Int) :
    Except Str MatchingSummary :=
  if (ut.length : Int) ≠ tt - (mp.length : Int) then
    .error "Unmatched transactions count mismatch".data
  else
    .ok ⟨mp, ut, ui, tt, ti, mr, tma⟩

/-- The field names accepted by the `Transaction` dataclass constructor as
*declared* in models.py lines 11-38 (`amount`, `description`, `date`,
`reference`, `account` — and no SEPA sub-fields). -/
def transactionInitFields : List Str :=
  ["amount".data, "description".data, "date".data, "reference".data, "account".data]

/-- A Python dataclass `__init__` accepts a keyword-argument set exactly
when every keyword is a declared field; otherwise it raises `TypeError`.
Evaluated on models.py's declared `Transaction` field list. -/
def transactionInitAccepts (kwargs : List Str) : Bool :=
  kwargs.all (fun k => transactionInitFields.contains k)

/-- The keyword arguments mt940_parser.py lines 134-143 (and the repo's
own test test_mt940_generation.py) pass to the `Transaction` constructor. -/
def parserTransactionKwargs : List Str :=
  ["amount".data, "description".data, "date".data, "reference".data, "account".data,
   "counterparty_name".data, "remittance_info".data, "counterparty_iban".data]

/-! ## Matcher (matcher.py `InvoiceMatcher.match_transactions_to_invoices`) -/

/-- matcher.py line 52: `invoice.invoice_number.lower() in
transaction.description.lower()`.  This is also, verbatim, the matching
predicate of the spec (§4.3 step 1), so implementation and spec-level
reconciler below share it. -/
def matchCond (t : Transaction) (v : Invoice) : Bool :=
  substrB (lowerS v.invoice_number) (lowerS t.description)

/-- The single-quote character used by matcher.py's reason string. -/
def squote : Char := Char.ofNat 39

/-- matcher.py line 59: the reason f-string, which wraps the invoice
number in single quotes. -/
def reasonStr (n : Str) : Str :=
  "Found ".data ++ [squote] ++ n ++ [squote] ++ " in description".data

/-- The `MatchResult` built at matcher.py lines 54-60. -/
def mkMatchResult (t : Transaction) (v : Invoice) : MatchResult :=
  ⟨t, v, 1, 0, [reasonStr v.invoice_number]⟩

/-- The matcher's main loop (matcher.py lines 43-68): iterate over
transactions; for each, scan `enumerate(invoices)` skipping indices in the
`used_invoices` set; on the first hit record a match and mark the index
used, otherwise add the transaction to the unmatched list.  Returns
(matched_pairs, unmatched_transactions, final used set). -/
def implLoop (inv : List (Nat × Invoice)) :
    List Transaction → List Nat → List MatchResult × List Transaction × List Nat
  | [], used => ([], [], used)
  | t :: ts, used =>
    match inv.find? (fun p => !(decide (p.1 ∈ used)) && matchCond t p.2) with
    | some p =>
      let r := implLoop inv ts (p.1 :: used)
      (mkMatchResult t p.2 :: r.1, r.2.1, r.2.2)
    | none =>
      let r := implLoop inv ts used
      (r.1, t :: r.2.1, r.2.2)

/-- matcher.py `match_transactions_to_invoices` lines 39-91: run the loop,
collect unmatched invoices (`enumerate(invoices)` entries whose index was
never used), compute `match_rate` (guarding `total > 0`) and
`total_matched_amount`, and construct the validated `MatchingSummary`. -/
def match_transactions_to_invoices (transactions : List Transaction)
    (invoices : List Invoice) : Except Str MatchingSummary :=
  let r := implLoop invoices.enum transactions []
  let matched_pairs := r.1
  let unmatched_transactions := r.2.1
  let used := r.2.2
  let unmatched_invoices :=
    (invoices.enum.filter (fun p => !(decide (p.1 ∈ used)))).map (·.2)
  let total_transactions := transactions.length
  let match_rate : ℚ :=
    if total_transactions > 0 then
      (matched_pairs.length : ℚ) / (total_transactions : ℚ) * 100
    else 0
  let total_matched_amount : Int :=
    (matched_pairs.map (fun m => m.transaction.amount)).sum
  mkMatchingSummary matched_pairs unmatched_transactions unmatched_invoices
    (total_transactions : Int) (invoices.length : Int) match_rate total_matched_amount

/-! ## Spec-level reconciler (the refinement reference for C1)

Written from the spec's words (§4.3): "For each record in input order,
scan unused candidates in input order; a candidate is a match if its
invoice_number (case-insensitive) occurs as a substring anywhere in the
record's description"; "the first unused one in candidate-list order
wins"; a bound candidate is removed from the pool and never reused. -/

structure SpecOutcome where
  found : List (Transaction × Invoice)
  unmatchedRecords : List Transaction
  pool : List Invoice
deriving DecidableEq

def reconcileSpec : List Transaction → List Invoice → SpecOutcome
  | [], pool => ⟨[], [], pool⟩
  | t :: ts, pool =>
    match pool.find? (matchCond t) with
    | some v =>
      let r := reconcileSpec ts (pool.eraseP (matchCond t))
      ⟨(t, v) :: r.found, r.unmatchedRecords, r.pool⟩
    | none =>
      let r := reconcileSpec ts pool
      ⟨r.found, t :: r.unmatchedRecords, r.pool⟩


/-! ## Matcher loop lemmas -/

theorem find?_over_filter {α : Type} (q c : α → Bool) :
    ∀ l : List α, (l.filter q).find? c = l.find? (fun x => q x && c x) := by
  intro l
  induction l with
  | nil => rfl
  | cons x xs ih =>
    by_cases hq : q x
    · by_cases hc : c x
      · simp [List.filter_cons, hq, List.find?_cons, hc]
      · simp [List.filter_cons, hq, List.find?_cons, hc, ih]
    · simp only [Bool.not_eq_true] at hq
      simp [List.filter_cons, hq, List.find?_cons, ih]

theorem find?_over_map {α β : Type} (f : α → β) (c : β → Bool) :
    ∀ l : List α, (l.map f).find? c = (l.find? (fun x => c (f x))).map f := by
  intro l
  induction l with
  | nil => rfl
  | cons x xs ih =>
    by_cases hc : c (f x)
    · simp [List.find?_cons, hc]
    · simp [List.find?_cons, hc, ih]

theorem eraseP_over_map {α β : Type} (f : α → β) (c : β → Bool) :
    ∀ l : List α, (l.map f).eraseP c = (l.eraseP (fun x => c (f x))).map f := by
  intro l
  induction l with
  | nil => rfl
  | cons x xs ih =>
    by_cases hc : c (f x)
    · simp [List.eraseP_cons, hc]
    · simp [List.eraseP_cons, hc, ih]

/-- Removing the first element satisfying `c` from the unused-filtered list
is the same as filtering with the found index added to the used set. -/
theorem eraseP_filter_used (c : Nat × Invoice → Bool) :
    ∀ (l : List (Nat × Invoice)) (used : List Nat) (p : Nat × Invoice),
    (l.map Prod.fst).Nodup →
    (l.filter (fun q => !(decide (q.1 ∈ used)))).find? c = some p →
    (l.filter (fun q => !(decide (q.1 ∈ used)))).eraseP c
      = l.filter (fun q => !(decide (q.1 ∈ p.1 :: used))) := by
  intro l
  induction l with
  | nil => intro used p _ hf; simp at hf
  | cons x xs ih =>
    intro used p hnd hf
    rw [List.map_cons] at hnd
    have hndx : x.1 ∉ xs.map Prod.fst := (List.nodup_cons.mp hnd).1
    have hndxs : (xs.map Prod.fst).Nodup := (List.nodup_cons.mp hnd).2
    by_cases hu : x.1 ∈ used
    · rw [List.filter_cons_of_neg (by simp [hu])] at hf ⊢
      rw [List.filter_cons_of_neg (by simp [hu])]
      exact ih used p hndxs hf
    · rw [List.filter_cons_of_pos (by simp [hu])] at hf ⊢
      by_cases hc : c x
      · rw [List.find?_cons_of_pos _ hc] at hf
        injection hf with hf
        subst hf
        rw [List.eraseP_cons_of_pos hc]
        rw [List.filter_cons_of_neg (by simp)]
        refine (List.filter_congr ?_).symm
        intro q hq
        have hne : q.1 ≠ x.1 := by
          intro h
          exact hndx (h ▸ (List.mem_map_of_mem Prod.fst hq))
        simp [hne, hu]
      · rw [List.find?_cons_of_neg _ hc] at hf
        have hpmem : p ∈ xs.filter (fun q => !(decide (q.1 ∈ used))) :=
          List.mem_of_find?_eq_some hf
        have hpxs : p ∈ xs := (List.mem_filter.mp hpmem).1
        have hxp : x.1 ≠ p.1 := by
          intro h
          exact hndx (h ▸ (List.mem_map_of_mem Prod.fst hpxs))
        rw [List.eraseP_cons_of_neg hc]
        rw [List.filter_cons_of_pos (by simp [hu, hxp])]
        rw [ih used p hndxs hf]

/-- The matcher's index-and-used-set loop refines the spec-level
pool-erasure reconciler: matches correspond (built by `mkMatchResult`),
unmatched records agree, and the never-used invoices are exactly the
spec reconciler's remaining pool. -/
theorem implLoop_refines (invs : List Invoice) :
    ∀ (ts : List Transaction) (used : List Nat),
    (implLoop invs.enum ts used).1 =
      (reconcileSpec ts ((invs.enum.filter (fun p => !(decide (p.1 ∈ used)))).map (·.2))).found.map
        (fun q => mkMatchResult q.1 q.2) ∧
    (implLoop invs.enum ts used).2.1 =
      (reconcileSpec ts ((invs.enum.filter (fun p => !(decide (p.1 ∈ used)))).map (·.2))).unmatchedRecords ∧
    ((invs.enum.filter (fun p => !(decide (p.1 ∈ (implLoop invs.enum ts used).2.2)))).map (·.2)) =
      (reconcileSpec ts ((invs.enum.filter (fun p => !(decide (p.1 ∈ used)))).map (·.2))).pool := by
  intro ts
  induction ts with
  | nil => intro used; exact ⟨rfl, rfl, rfl⟩
  | cons t ts ih =>
    intro used
    have hnd : (invs.enum.map Prod.fst).Nodup := by
      rw [List.enum_map_fst]; exact List.nodup_range _
    have hfind : ((invs.enum.filter (fun p => !(decide (p.1 ∈ used)))).map (·.2)).find? (matchCond t)
        = (invs.enum.find? (fun p => !(decide (p.1 ∈ used)) && matchCond t p.2)).map (·.2) := by
      rw [find?_over_map, find?_over_filter]
    rcases hE : invs.enum.find? (fun p => !(decide (p.1 ∈ used)) && matchCond t p.2) with _ | p
    · have hpool : ((invs.enum.filter (fun p => !(decide (p.1 ∈ used)))).map (·.2)).find? (matchCond t) = none := by
        rw [hfind, hE]; rfl
      have himpl : implLoop invs.enum (t :: ts) used =
          ((implLoop invs.enum ts used).1,
           t :: (implLoop invs.enum ts used).2.1,
           (implLoop invs.enum ts used).2.2) := by
        simp only [implLoop, hE]
      have hspec : reconcileSpec (t :: ts) ((invs.enum.filter (fun p => !(decide (p.1 ∈ used)))).map (·.2)) =
          ⟨(reconcileSpec ts ((invs.enum.filter (fun p => !(decide (p.1 ∈ used)))).map (·.2))).found,
           t :: (reconcileSpec ts ((invs.enum.filter (fun p => !(decide (p.1 ∈ used)))).map (·.2))).unmatchedRecords,
           (reconcileSpec ts ((invs.enum.filter (fun p => !(decide (p.1 ∈ used)))).map (·.2))).pool⟩ := by
        simp only [reconcileSpec, hpool]
      rcases ih used with ⟨h1, h2, h3⟩
      rw [himpl, hspec]
      exact ⟨h1, by rw [h2], h3⟩
    · have hpool : ((invs.enum.filter (fun p => !(decide (p.1 ∈ used)))).map (·.2)).find? (matchCond t)
          = some p.2 := by
        rw [hfind, hE]; rfl
      have herase : ((invs.enum.filter (fun p => !(decide (p.1 ∈ used)))).map (·.2)).eraseP (matchCond t)
          = (invs.enum.filter (fun q => !(decide (q.1 ∈ p.1 :: used)))).map (·.2) := by
        rw [eraseP_over_map]
        congr 1
        exact eraseP_filter_used _ invs.enum used p hnd (by rw [find?_over_filter]; exact hE)
      have himpl : implLoop invs.enum (t :: ts) used =
          (mkMatchResult t p.2 :: (implLoop invs.enum ts (p.1 :: used)).1,
           (implLoop invs.enum ts (p.1 :: used)).2.1,
           (implLoop invs.enum ts (p.1 :: used)).2.2) := by
        simp only [implLoop, hE]
      have hspec : reconcileSpec (t :: ts) ((invs.enum.filter (fun p => !(decide (p.1 ∈ used)))).map (·.2)) =
          ⟨(t, p.2) :: (reconcileSpec ts ((invs.enum.filter (fun q => !(decide (q.1 ∈ p.1 :: used)))).map (·.2))).found,
           (reconcileSpec ts ((invs.enum.filter (fun q => !(decide (q.1 ∈ p.1 :: used)))).map (·.2))).unmatchedRecords,
           (reconcileSpec ts ((invs.enum.filter (fun q => !(decide (q.1 ∈ p.1 :: used)))).map (·.2))).pool⟩ := by
        simp only [reconcileSpec, hpool, herase]
      rcases ih (p.1 :: used) with ⟨h1, h2, h3⟩
      rw [himpl, hspec]
      exact ⟨by rw [List.map_cons, h1], h2, h3⟩

theorem implLoop_length (inv : List (Nat × Invoice)) :
    ∀ (ts : List Transaction) (used : List Nat),
    (implLoop inv ts used).1.length + (implLoop inv ts used).2.1.length = ts.length := by
  intro ts
  induction ts with
  | nil => intro used; rfl
  | cons t ts ih =>
    intro used
    rcases hE : inv.find? (fun p => !(decide (p.1 ∈ used)) && matchCond t p.2) with _ | p
    · have : implLoop inv (t :: ts) used =
          ((implLoop inv ts used).1, t :: (implLoop inv ts used).2.1,
           (implLoop inv ts used).2.2) := by
        simp only [implLoop, hE]
      rw [this]
      have := ih used
      simp only [List.length_cons]
      omega
    · have : implLoop inv (t :: ts) used =
          (mkMatchResult t p.2 :: (implLoop inv ts (p.1 :: used)).1,
           (implLoop inv ts (p.1 :: used)).2.1, (implLoop inv ts (p.1 :: used)).2.2) := by
        simp only [implLoop, hE]
      rw [this]
      have := ih (p.1 :: used)
      simp only [List.length_cons]
      omega

theorem perm_cons_eraseP_of_find? {α : Type} (c : α → Bool) :
    ∀ (l : List α) (v : α), l.find? c = some v → (v :: l.eraseP c).Perm l := by
  intro l
  induction l with
  | nil => intro v h; simp at h
  | cons x xs ih =>
    intro v h
    by_cases hc : c x
    · rw [List.find?_cons_of_pos _ hc] at h
      injection h with h
      subst h
      rw [List.eraseP_cons_of_pos hc]
    · rw [List.find?_cons_of_neg _ hc] at h
      rw [List.eraseP_cons_of_neg hc]
      exact (List.Perm.swap x v _).trans ((ih v h).cons x)

/-- Every candidate bound by the spec reconciler is taken from the pool
exactly once: bound candidates plus the remaining pool permute the input
pool. -/
theorem reconcileSpec_perm :
    ∀ (ts : List Transaction) (pool : List Invoice),
    ((reconcileSpec ts pool).found.map Prod.snd ++ (reconcileSpec ts pool).pool).Perm pool := by
  intro ts
  induction ts with
  | nil => intro pool; simp [reconcileSpec]
  | cons t ts ih =>
    intro pool
    rcases hE : pool.find? (matchCond t) with _ | v
    · have : reconcileSpec (t :: ts) pool =
          ⟨(reconcileSpec ts pool).found, t :: (reconcileSpec ts pool).unmatchedRecords,
           (reconcileSpec ts pool).pool⟩ := by
        simp only [reconcileSpec, hE]
      rw [this]
      exact ih pool
    · have : reconcileSpec (t :: ts) pool =
          ⟨(t, v) :: (reconcileSpec ts (pool.eraseP (matchCond t))).found,
           (reconcileSpec ts (pool.eraseP (matchCond t))).unmatchedRecords,
           (reconcileSpec ts (pool.eraseP (matchCond t))).pool⟩ := by
        simp only [reconcileSpec, hE]
      rw [this]
      simp only [List.map_cons, List.cons_append]
      exact ((ih (pool.eraseP (matchCond t))).cons v).trans
        (perm_cons_eraseP_of_find? _ pool v hE)

theorem enum_unused_nil (invs : List Invoice) :
    ((invs.enum.filter (fun p => !(decide (p.1 ∈ ([] : List Nat))))).map (·.2)) = invs := by
  have h1 : (invs.enum.filter (fun p => !(decide (p.1 ∈ ([] : List Nat))))) = invs.enum := by
    apply List.filter_eq_self.mpr
    intro a _
    simp
  rw [h1]
  exact List.enum_map_snd invs

/-- The summary value actually returned by the matcher: the
`MatchingSummary` validation always passes because the loop splits the
transactions exactly into matched and unmatched ones. -/
theorem matcher_ok (ts : List Transaction) (invs : List Invoice) :
    match_transactions_to_invoices ts invs = .ok
      ⟨(implLoop invs.enum ts []).1,
       (implLoop invs.enum ts []).2.1,
       (invs.enum.filter (fun p => !(decide (p.1 ∈ (implLoop invs.enum ts []).2.2)))).map (·.2),
       (ts.length : Int),
       (invs.length : Int),
       (if ts.length > 0 then ((implLoop invs.enum ts []).1.length : ℚ) / (ts.length : ℚ) * 100 else 0),
       ((implLoop invs.enum ts []).1.map (fun m => m.transaction.amount)).sum⟩ := by
  have hlen := implLoop_length invs.enum ts []
  simp only [match_transactions_to_invoices, mkMatchingSummary]
  rw [if_neg]
  omega

/-! ## Concrete scenario data (spec §8), reused by several witnesses -/

/-- The spec §8 sample record: amount -125.50, description mentioning
invoice INV-2024-001, reference TXN001. -/
def wT : Transaction :=
  ⟨-12550, "Payment for invoice INV-2024-001".data, ⟨2024, 1, 15⟩, "TXN001".data,
   none, none, none, none⟩

/-- The spec §8 sample invoice candidate INV-2024-001. -/
def wI : Invoice :=
  ⟨"INV-2024-001".data, "data/invoices/INV-2024-001.pdf".data, none, none, none, none⟩

/-- C1: `reconcile` processes records in input order and, for each record,
scans the not-yet-used candidates in candidate-list input order; the first
unused candidate whose invoice_number occurs case-insensitively as a
substring anywhere in the record's description is bound into a Match with
confidence_score 1.0 and amount_difference 0, and a record with no unused
matching candidate lands in unmatched_records.  Stated as: the
implementation returns exactly the greedy first-match reconciliation
described by `reconcileSpec`, with every match carrying confidence 1 and
amount difference 0. -/
theorem C1_reconcile_first_match_greedy (ts : List Transaction) (invs : List Invoice) :
    ∃ s, match_transactions_to_invoices ts invs = .ok s ∧
      s.matched_pairs =
        (reconcileSpec ts invs).found.map (fun q => mkMatchResult q.1 q.2) ∧
      s.unmatched_transactions = (reconcileSpec ts invs).unmatchedRecords ∧
      ∀ m ∈ s.matched_pairs, m.confidence_score = 1 ∧ m.amount_difference = 0 := by
  refine ⟨_, matcher_ok ts invs, ?_, ?_, ?_⟩
  · have h := (implLoop_refines invs ts []).1
    rw [enum_unused_nil] at h
    exact h
  · have h := (implLoop_refines invs ts []).2.1
    rw [enum_unused_nil] at h
    exact h
  · intro m hm
    have h := (implLoop_refines invs ts []).1
    rw [enum_unused_nil] at h
    rw [h] at hm
    rcases List.mem_map.mp hm with ⟨q, _, hq⟩
    subst hq
    exact ⟨rfl, rfl⟩

/-- C3 counterexample: the claim quantifies over *every*
ReconciliationSummary, but `MatchingSummary.__post_init__` does not check
`match_rate`; a summary with zero records and `match_rate = 50` is
constructed without error, violating the claimed
`match_rate == len(matches)/total_records*100 (0 when total_records == 0)`
equation, which would require 0 here. -/
theorem C3_summary_consistency_counterexample :
    (mkMatchingSummary [] [] [] 0 0 50 0).map (fun s => s.match_rate) = .ok 50 ∧
    (50 : ℚ) ≠ 0 := by
  refine ⟨rfl, by norm_num⟩

/-- C3 (amended): every *successfully constructed* summary satisfies
`len(unmatched_records) == total_records - len(matches)` (violating that
equation at construction is an error), and every summary returned by
`reconcile` additionally satisfies the match-rate equation, with
match_rate 0 when total_records is 0 (no division by zero). -/
theorem C3_summary_consistency :
    (∀ mp ut ui tt ti mr tma s,
      mkMatchingSummary mp ut ui tt ti mr tma = .ok s →
      (s.unmatched_transactions.length : Int) =
        s.total_transactions - (s.matched_pairs.length : Int)) ∧
    (∀ ts invs s, match_transactions_to_invoices ts invs = .ok s →
      (s.unmatched_transactions.length : Int) =
        s.total_transactions - (s.matched_pairs.length : Int) ∧
      s.match_rate = (if s.total_transactions = 0 then 0 else
        (s.matched_pairs.length : ℚ) / ((s.total_transactions : Int) : ℚ) * 100)) := by
  constructor
  · intro mp ut ui tt ti mr tma s h
    unfold mkMatchingSummary at h
    by_cases hc : (ut.length : Int) ≠ tt - (mp.length : Int)
    · rw [if_pos hc] at h; cases h
    · rw [if_neg hc] at h
      injection h with h
      subst h
      push_neg at hc
      simpa using hc
  · intro ts invs s h
    rw [matcher_ok ts invs] at h
    injection h with h
    subst h
    have hlen := implLoop_length invs.enum ts []
    constructor
    · simp only []
      omega
    · simp only []
      by_cases h0 : ts.length = 0
      · rw [if_neg (by omega), if_pos (by exact_mod_cast h0)]
      · rw [if_pos (by omega), if_neg (by exact_mod_cast h0)]
        rw [Int.cast_natCast]

/-- Witness for C3 at concrete inputs: an explicitly constructed empty
summary, and the matcher run on the spec §8 scenario. -/
theorem C3_summary_consistency_witness :
    ((((⟨[], [], [], 0, 0, 0, 0⟩ : MatchingSummary).unmatched_transactions.length : Int) =
      (⟨[], [], [], 0, 0, 0, 0⟩ : MatchingSummary).total_transactions -
        ((⟨[], [], [], 0, 0, 0, 0⟩ : MatchingSummary).matched_pairs.length : Int)) ∧
     ∃ s, match_transactions_to_invoices [wT] [wI] = .ok s ∧
       ((s.unmatched_transactions.length : Int) =
         s.total_transactions - (s.matched_pairs.length : Int) ∧
        s.match_rate = (if s.total_transactions = 0 then 0 else
          (s.matched_pairs.length : ℚ) / ((s.total_transactions : Int) : ℚ) * 100))) :=
  ⟨C3_summary_consistency.1 [] [] [] 0 0 0 0 _ rfl,
   _, matcher_ok [wT] [wI], C3_summary_consistency.2 [wT] [wI] _ (matcher_ok [wT] [wI])⟩

/-- C4: with pairwise-distinct candidates, no invoice appears in more than
one Match of a returned summary, and every candidate never bound appears
exactly once in unmatched_invoices. -/
theorem C4_at_most_one_use (ts : List Transaction) (invs : List Invoice)
    (hnd : invs.Nodup) :
    ∀ s, match_transactions_to_invoices ts invs = .ok s →
      (s.matched_pairs.map (fun m => m.invoice)).Nodup ∧
      ∀ v ∈ invs, v ∉ s.matched_pairs.map (fun m => m.invoice) →
        s.unmatched_invoices.count v = 1 := by
  intro s h
  rw [matcher_ok ts invs] at h
  injection h with h
  subst h
  have h1 := (implLoop_refines invs ts []).1
  rw [enum_unused_nil] at h1
  have h3 := (implLoop_refines invs ts []).2.2
  rw [enum_unused_nil] at h3
  have hminv : (implLoop invs.enum ts []).1.map (fun m => m.invoice) =
      (reconcileSpec ts invs).found.map Prod.snd := by
    rw [h1, List.map_map]
    rfl
  have hperm := reconcileSpec_perm ts invs
  have hndapp : ((reconcileSpec ts invs).found.map Prod.snd ++
      (reconcileSpec ts invs).pool).Nodup := hperm.nodup_iff.mpr hnd
  constructor
  · simp only [hminv]
    exact (List.nodup_append.mp hndapp).1
  · intro v hv hnotin
    simp only [hminv] at hnotin
    simp only [h3]
    have hcnt := hperm.count_eq v
    rw [List.count_append] at hcnt
    rw [List.count_eq_zero.mpr hnotin] at hcnt
    simp only [Nat.zero_add] at hcnt
    rw [hcnt]
    exact List.count_eq_one_of_mem hnd hv

/-- Witness for C4 on the spec §8 scenario. -/
theorem C4_at_most_one_use_witness :
    ([wI].Nodup) ∧
    ∃ s, match_transactions_to_invoices [wT] [wI] = .ok s ∧
      ((s.matched_pairs.map (fun m => m.invoice)).Nodup ∧
       ∀ v ∈ [wI], v ∉ s.matched_pairs.map (fun m => m.invoice) →
         s.unmatched_invoices.count v = 1) :=
  ⟨List.nodup_singleton wI, _, matcher_ok [wT] [wI],
   C4_at_most_one_use [wT] [wI] (List.nodup_singleton wI) _ (matcher_ok [wT] [wI])⟩

/-- C10: constructing a `MatchingSummary` raises exactly when
`len(unmatched_transactions)` differs from
`total_transactions - len(matched_pairs)`; nothing else (match_rate,
total_invoices, unmatched_invoices) is validated, and a successful
construction stores the arguments unchanged. -/
theorem C10_summary_construction_validation (mp : List MatchResult)
    (ut : List Transaction) (ui : List Invoice) (tt ti : Int) (mr : ℚ) (tma : Int) :
    ((∃ e, mkMatchingSummary mp ut ui tt ti mr tma = .error e) ↔
      (ut.length : Int) ≠ tt - (mp.length : Int)) ∧
    ((ut.length : Int) = tt - (mp.length : Int) →
      mkMatchingSummary mp ut ui tt ti mr tma = .ok ⟨mp, ut, ui, tt, ti, mr, tma⟩) := by
  constructor
  · constructor
    · rintro ⟨e, he⟩ hc
      unfold mkMatchingSummary at he
      rw [if_neg (by omega)] at he
      cases he
    · intro hc
      refine ⟨"Unmatched transactions count mismatch".data, ?_⟩
      unfold mkMatchingSummary
      rw [if_pos hc]
  · intro hc
    unfold mkMatchingSummary
    rw [if_neg (by omega)]

/-- Witness for C10: at the concrete instance with consistent counts but a
match_rate (50) disagreeing with its empty matches list, construction
succeeds. -/
theorem C10_summary_construction_validation_witness :
    ((0 : Int) = 0 - (0 : Int)) ∧
    mkMatchingSummary [] [] [] 0 0 50 0 = .ok ⟨[], [], [], 0, 0, 50, 0⟩ :=
  ⟨by norm_num,
   (C10_summary_construction_validation [] [] [] 0 0 50 0).2 (by norm_num)⟩

/-- C6: the `Transaction` dataclass declared in models.py accepts only
amount/description/date/reference/account; the keyword set that
mt940_parser.py (and the repo's own test_mt940_generation.py) passes —
which additionally contains counterparty_name, remittance_info and
counterparty_iban — is rejected (Python raises `TypeError`), so
constructing a Record with the SEPA sub-fields does not succeed against
models.py as written. -/
theorem C6_transaction_sepa_fields_not_declared :
    transactionInitAccepts parserTransactionKwargs = false ∧
    transactionInitAccepts transactionInitFields = true := by
  decide

/-! ## Parser deduplication (mt940_parser.py `MT940Parser.parse`, lines 61-91) -/

/-- The dedup key of mt940_parser.py line 74: the string
`f"{date:%Y-%m-%d}_{amount}_{reference}"`.  The date and amount renderings
contain no underscore, so equality of key strings coincides with equality
of the (date, amount, reference) triple, which is how the key is
modelled. -/
def dedupKey (t : Transaction) : Date × Int × Str := (t.date, t.amount, t.reference)

/-- The dedup-and-filter loop of `MT940Parser.parse` over the converted
transactions: a first-seen key is appended to `all_transactions` (and, if
it passes the filter, to `filtered_transactions`); a repeated key bumps
`duplicates_found`.  Returns
(all_transactions, filtered_transactions, duplicates_found). -/
def parse_loop (filt : Transaction → Bool) :
    List Transaction → List (Date × Int × Str) → List Transaction × List Transaction × Nat
  | [], _ => ([], [], 0)
  | t :: ts, seen =>
    if dedupKey t ∈ seen then
      let r := parse_loop filt ts seen
      (r.1, r.2.1, r.2.2 + 1)
    else
      let r := parse_loop filt ts (dedupKey t :: seen)
      (t :: r.1, (if filt t then t :: r.2.1 else r.2.1), r.2.2)

/-- Standalone first-occurrence deduplication on the composite
(date, amount, reference) key — the operation named by the claim. -/
def dedupByKey : List Transaction → List (Date × Int × Str) → List Transaction
  | [], _ => []
  | t :: ts, seen =>
    if dedupKey t ∈ seen then dedupByKey ts seen
    else t :: dedupByKey ts (dedupKey t :: seen)

/-- The seen-key set after processing a list. -/
def seenAcc : List Transaction → List (Date × Int × Str) → List (Date × Int × Str)
  | [], seen => seen
  | t :: ts, seen =>
    if dedupKey t ∈ seen then seenAcc ts seen
    else seenAcc ts (dedupKey t :: seen)

theorem parse_loop_all_eq_dedup (filt : Transaction → Bool) :
    ∀ (ts : List Transaction) (seen : List (Date × Int × Str)),
    (parse_loop filt ts seen).1 = dedupByKey ts seen := by
  intro ts
  induction ts with
  | nil => intro seen; rfl
  | cons t ts ih =>
    intro seen
    by_cases h : dedupKey t ∈ seen
    · simp only [parse_loop, dedupByKey, if_pos h]
      exact ih seen
    · simp only [parse_loop, dedupByKey, if_neg h]
      rw [ih (dedupKey t :: seen)]

theorem parse_loop_filtered (filt : Transaction → Bool) :
    ∀ (ts : List Transaction) (seen : List (Date × Int × Str)),
    (parse_loop filt ts seen).2.1 = (parse_loop filt ts seen).1.filter filt := by
  intro ts
  induction ts with
  | nil => intro seen; rfl
  | cons t ts ih =>
    intro seen
    by_cases h : dedupKey t ∈ seen
    · simp only [parse_loop, if_pos h]
      exact ih seen
    · simp only [parse_loop, if_neg h]
      by_cases hf : filt t
      · rw [if_pos hf, List.filter_cons_of_pos hf, ih (dedupKey t :: seen)]
      · rw [if_neg hf, List.filter_cons_of_neg (by simpa using hf), ih (dedupKey t :: seen)]

theorem parse_loop_count (filt : Transaction → Bool) :
    ∀ (ts : List Transaction) (seen : List (Date × Int × Str)),
    (parse_loop filt ts seen).1.length + (parse_loop filt ts seen).2.2 = ts.length := by
  intro ts
  induction ts with
  | nil => intro seen; rfl
  | cons t ts ih =>
    intro seen
    by_cases h : dedupKey t ∈ seen
    · simp only [parse_loop, if_pos h, List.length_cons]
      have := ih seen
      omega
    · simp only [parse_loop, if_neg h, List.length_cons]
      have := ih (dedupKey t :: seen)
      omega

theorem dedupByKey_keys_fresh :
    ∀ (ts : List Transaction) (seen : List (Date × Int × Str)),
    ((dedupByKey ts seen).map dedupKey).Nodup ∧
    ∀ k ∈ (dedupByKey ts seen).map dedupKey, k ∉ seen := by
  intro ts
  induction ts with
  | nil => intro seen; exact ⟨List.nodup_nil, by intro k hk; simp [dedupByKey] at hk⟩
  | cons t ts ih =>
    intro seen
    by_cases h : dedupKey t ∈ seen
    · simp only [dedupByKey, if_pos h]
      exact ih seen
    · simp only [dedupByKey, if_neg h, List.map_cons]
      rcases ih (dedupKey t :: seen) with ⟨ihn, ihf⟩
      constructor
      · rw [List.nodup_cons]
        refine ⟨fun hmem => ?_, ihn⟩
        exact ihf (dedupKey t) hmem (List.mem_cons_self _ _)
      · intro k hk
        rcases List.mem_cons.mp hk with hk | hk
        · exact hk ▸ h
        · intro hks
          exact ihf k hk (List.mem_cons_of_mem _ hks)

theorem dedupByKey_fixed :
    ∀ (l : List Transaction) (seen : List (Date × Int × Str)),
    ((l.map dedupKey).Nodup) → (∀ k ∈ l.map dedupKey, k ∉ seen) →
    dedupByKey l seen = l := by
  intro l
  induction l with
  | nil => intro seen _ _; rfl
  | cons t ts ih =>
    intro seen hnd hf
    rw [List.map_cons, List.nodup_cons] at hnd
    have hts : dedupKey t ∉ seen := hf (dedupKey t) (by simp)
    simp only [dedupByKey, if_neg hts]
    rw [ih (dedupKey t :: seen) hnd.2]
    intro k hk
    rw [List.mem_cons]
    push_neg
    refine ⟨fun he => hnd.1 (he ▸ hk), hf k (List.mem_cons_of_mem _ hk)⟩

theorem dedupByKey_all_seen :
    ∀ (l : List Transaction) (seen : List (Date × Int × Str)),
    (∀ t ∈ l, dedupKey t ∈ seen) → dedupByKey l seen = [] := by
  intro l
  induction l with
  | nil => intro seen _; rfl
  | cons t ts ih =>
    intro seen h
    simp only [dedupByKey, if_pos (h t (by simp))]
    exact ih seen (fun x hx => h x (List.mem_cons_of_mem _ hx))

theorem seenAcc_mono :
    ∀ (l : List Transaction) (seen : List (Date × Int × Str)) (k : Date × Int × Str),
    k ∈ seen → k ∈ seenAcc l seen := by
  intro l
  induction l with
  | nil => intro seen k hk; exact hk
  | cons t ts ih =>
    intro seen k hk
    by_cases h : dedupKey t ∈ seen
    · simp only [seenAcc, if_pos h]
      exact ih seen k hk
    · simp only [seenAcc, if_neg h]
      exact ih (dedupKey t :: seen) k (List.mem_cons_of_mem _ hk)

theorem seenAcc_covers :
    ∀ (l : List Transaction) (seen : List (Date × Int × Str)),
    ∀ t ∈ l, dedupKey t ∈ seenAcc l seen := by
  intro l
  induction l with
  | nil => intro seen t ht; simp at ht
  | cons x xs ih =>
    intro seen t ht
    by_cases h : dedupKey x ∈ seen
    · simp only [seenAcc, if_pos h]
      rcases List.mem_cons.mp ht with rfl | ht
      · exact seenAcc_mono xs seen _ h
      · exact ih seen t ht
    · simp only [seenAcc, if_neg h]
      rcases List.mem_cons.mp ht with rfl | ht
      · exact seenAcc_mono xs _ _ (by simp)
      · exact ih (dedupKey x :: seen) t ht

theorem dedupByKey_append :
    ∀ (l l2 : List Transaction) (seen : List (Date × Int × Str)),
    dedupByKey (l ++ l2) seen = dedupByKey l seen ++ dedupByKey l2 (seenAcc l seen) := by
  intro l
  induction l with
  | nil => intro l2 seen; rfl
  | cons t ts ih =>
    intro l2 seen
    by_cases h : dedupKey t ∈ seen
    · simp only [List.cons_append, dedupByKey, seenAcc, if_pos h]
      exact ih l2 seen
    · simp only [List.cons_append, dedupByKey, seenAcc, if_neg h, List.append_eq]
      rw [ih l2 (dedupKey t :: seen)]

/-- C5: `MT940Parser.parse` deduplicates unconditionally on the composite
(date, amount, reference) key keeping the first occurrence (the kept
record list is exactly `dedupByKey` of the raw records, and the returned
filtered list is its filter); concatenating the result of parsing twice
and deduplicating by the key yields the parse-once result; and the
duplicate count returned alongside equals the number of dropped raw
records. -/
theorem C5_dedup_idempotent (filt : Transaction → Bool) (raws : List Transaction) :
    (parse_loop filt raws []).1 = dedupByKey raws [] ∧
    (parse_loop filt raws []).2.1 = (dedupByKey raws []).filter filt ∧
    dedupByKey ((parse_loop filt raws []).2.1 ++ (parse_loop filt raws []).2.1) [] =
      (parse_loop filt raws []).2.1 ∧
    (parse_loop filt raws []).2.2 = raws.length - (parse_loop filt raws []).1.length := by
  have h1 := parse_loop_all_eq_dedup filt raws []
  have h2 := parse_loop_filtered filt raws []
  have hcnt := parse_loop_count filt raws []
  refine ⟨h1, by rw [h2, h1], ?_, by omega⟩
  have hsub : (parse_loop filt raws []).2.1.Sublist (dedupByKey raws []) := by
    rw [h2, h1]
    exact List.filter_sublist _
  have hknd : ((parse_loop filt raws []).2.1.map dedupKey).Nodup :=
    (dedupByKey_keys_fresh raws []).1.sublist (hsub.map dedupKey)
  rw [dedupByKey_append]
  rw [dedupByKey_fixed _ [] hknd (by simp)]
  rw [dedupByKey_all_seen _ (seenAcc _ []) (seenAcc_covers _ [])]
  simp

/-! ## Decimal and date formatting (mt940_generator.py helpers) -/

def digitChar : Nat → Char
  | 0 => '0' | 1 => '1' | 2 => '2' | 3 => '3' | 4 => '4'
  | 5 => '5' | 6 => '6' | 7 => '7' | 8 => '8' | _ => '9'

def digitVal (c : Char) : Nat := c.toNat - 48

/-- Decimal rendering of a natural number (fuelled; `natToStr` supplies
enough fuel). -/
def natToStrAux : Nat → Nat → Str
  | 0, _ => []
  | fuel + 1, n =>
    if n < 10 then [digitChar n]
    else natToStrAux fuel (n / 10) ++ [digitChar (n % 10)]

def natToStr (n : Nat) : Str := natToStrAux (n + 1) n

/-- Python `f"{n:02d}"`. -/
def pad2 (n : Nat) : Str := List.replicate (2 - (natToStr n).length) '0' ++ natToStr n

/-- Python `f"{amount:.2f}".replace(".", ",")` for a nonnegative amount
given in cents. -/
def fmtCents (n : Nat) : Str := natToStr (n / 100) ++ [','] ++ pad2 (n % 100)

/-- Python `date.strftime("%y%m%d")`. -/
def yymmdd (d : Date) : Str := pad2 (d.year % 100) ++ pad2 d.month ++ pad2 d.day

/-! ## MT940 generator (mt940_generator.py `MT940Generator`) -/

/-- `_generate_header` (lines 98-113); `now` models `datetime.now()` used
for the `:28:` sequence tag. -/
def generate_header (now : Date) : List Str :=
  ["ABNANL2A".data, "940".data, "ABNANL2A".data,
   ":20:MATCHED TRANSACTIONS".data,
   ":25:438661141".data,
   ":28:".data ++ pad2 (now.year % 100) ++ pad2 now.month ++ "/1".data]

/-- The `:61:` line of `_generate_transaction_lines` (lines 115-141):
value date and book date (both `%y%m%d` of the transaction date), a D/C
marker from the amount sign, the absolute amount with comma separator,
the fixed type code N249, and the reference (with the NONREF fallback for
a falsy reference). -/
def generate_transaction_line (t : Transaction) : Str :=
  ":61:".data ++ yymmdd t.date ++ yymmdd t.date ++
  (if t.amount < 0 then ['D'] else ['C']) ++
  fmtCents t.amount.natAbs ++ "N249".data ++
  (if t.reference = [] then "NONREF".data else t.reference)

/-- Python truthiness guard used by `_generate_detail_line`: a tag part is
emitted only when the optional value is present and non-empty. -/
def optTag (tag : Str) (v : Option Str) : Str :=
  match v with
  | some s => if s = [] then [] else tag ++ s
  | none => []

/-- The `:86:` line of `_generate_detail_line` (lines 143-169). -/
def generate_detail_line (t : Transaction) : Str :=
  ":86:/TRTP/SEPA INCASSO BEDRIJVEN DOORLOPEND".data ++
  optTag "/NAME/".data t.counterparty_name ++
  optTag "/REMI/".data t.remittance_info ++
  optTag "/IBAN/".data t.counterparty_iban ++
  (if t.reference = [] then [] else "/EREF/".data ++ t.reference)

/-- `_format_balance` (lines 203-218). -/
def format_balance (dateStr : Str) (cents : Nat) (is_debit : Bool) : Str :=
  (if is_debit then ['D'] else ['C']) ++ dateStr ++ "EUR".data ++ fmtCents cents

/-- `_calculate_balances` (lines 171-201): zero credit opening balance at
the first transaction's date; closing balance is the signed total with a
debit marker when negative. -/
def calculate_balances (ts : List Transaction) : Str × Str :=
  match ts with
  | [] => ("C991231EUR0,00".data, "C991231EUR0,00".data)
  | t :: rest =>
    let balance_date := yymmdd t.date
    let total : Int := ((t :: rest).map (fun x => x.amount)).sum
    (format_balance balance_date 0 false,
     format_balance balance_date total.natAbs (decide (total < 0)))

/-- The line list assembled by `_build_mt940_content` (lines 68-96). -/
def build_lines (now : Date) (ts : List Transaction) : List Str :=
  generate_header now ++
  [":60F:".data ++ (calculate_balances ts).1] ++
  ts.flatMap (fun t => [generate_transaction_line t, generate_detail_line t]) ++
  [":62F:".data ++ (calculate_balances ts).2]

/-- `"\n".join(lines)`. -/
def joinNL : List Str → Str
  | [] => []
  | [l] => l
  | l :: ls => l ++ '\n' :: joinNL ls

def build_mt940_content (now : Date) (ts : List Transaction) : Str :=
  joinNL (build_lines now ts)

/-- Stable insertion by date: the new element goes in front of the first
element whose date is not strictly earlier.  Python's `sorted` is a
stable sort, and a stable sort by a fixed key function is extensionally
unique, so this insertion sort is the same function. -/
def insertByDate (t : Transaction) : List Transaction → List Transaction
  | [] => [t]
  | x :: xs =>
    if dateLtB x.date t.date then x :: insertByDate t xs else t :: x :: xs

/-- `sorted(matched_transactions, key=lambda t: t.date)`
(mt940_generator.py line 48). -/
def sortByDate : List Transaction → List Transaction
  | [] => []
  | t :: ts => insertByDate t (sortByDate ts)

/-- File-system effects performed by generator and assembler. -/
inductive FsEffect where
  | makedirsE (path : Str)
  | writeFileE (path : Str) (content : Str)
  | mkdtempE (dir : Str)
  | copyFileE (src : Str) (dst : Str)
  | rmtreeE (path : Str)
deriving DecidableEq

/-- `os.path.dirname`: everything before the last slash. -/
def dirName (p : Str) : Str :=
  ((p.reverse.dropWhile (fun c => c ≠ '/')).drop 1).reverse

/-- `MT940Generator.generate_from_matches` (lines 24-66): raises a
`ValueError` on an empty match list before touching the file system;
otherwise sorts the matched transactions by date, builds the content,
ensures the output directory exists and writes the file. -/
def generate_from_matches (now : Date) (matched_pairs : List MatchResult)
    (output_path : Str) : List FsEffect × Except Str Str :=
  if matched_pairs.isEmpty then
    ([], .error "No matched pairs provided for MT940 generation".data)
  else
    let matched_transactions := matched_pairs.map (fun m => m.transaction)
    let sorted_transactions := sortByDate matched_transactions
    let content := build_mt940_content now sorted_transactions
    ([.makedirsE (dirName output_path), .writeFileE output_path content],
     .ok output_path)

/-- upload_data_generator.py `UploadDataPackage`. -/
structure UploadDataPackage where
  mt940_file_path : Str
  pdf_files : List (Str × Str)
  transaction_mapping : List (Str × Str)
  total_matches : Nat
  temp_directory : Str
deriving DecidableEq

/-- `UploadDataGenerator.prepare_upload_data` (lines 53-113): raises a
`ValueError` on an empty match list before creating any directory;
otherwise creates the temp directory (`fsExists` models
`os.path.exists`; `tempDir` the name `mkdtemp` would mint), generates the
MT940 file, copies each existing source PDF (missing ones are skipped),
and builds the reference-to-invoice mapping; a generator error rolls the
temp directory back. -/
def prepare_upload_data (now : Date) (fsExists : Str → Bool) (tempDir : Str)
    (summary : MatchingSummary) (temp_base_dir : Option Str) :
    List FsEffect × Except Str UploadDataPackage :=
  if summary.matched_pairs.isEmpty then
    ([], .error "No matched pairs found in summary".data)
  else
    let baseEff : List FsEffect :=
      match temp_base_dir with
      | some b => [.makedirsE b]
      | none => []
    let eff0 := baseEff ++ [FsEffect.mkdtempE tempDir]
    let mt940_path := tempDir ++ "/matched_transactions.STA".data
    let gen := generate_from_matches now summary.matched_pairs mt940_path
    match gen.2 with
    | .error e => (eff0 ++ gen.1 ++ [.rmtreeE tempDir], .error e)
    | .ok mtPath =>
      let pdfs_dir := tempDir ++ "/pdfs".data
      let present := summary.matched_pairs.filter (fun m => fsExists m.invoice.file_path)
      let copyEff := present.map (fun m =>
        FsEffect.copyFileE m.invoice.file_path
          (pdfs_dir ++ ['/'] ++ m.invoice.invoice_number ++ ".pdf".data))
      let pdf_files := present.map (fun m =>
        (m.invoice.invoice_number, pdfs_dir ++ ['/'] ++ m.invoice.invoice_number ++ ".pdf".data))
      let transaction_mapping := summary.matched_pairs.map (fun m =>
        (m.transaction.reference, m.invoice.invoice_number))
      (eff0 ++ gen.1 ++ [.makedirsE pdfs_dir] ++ copyEff,
       .ok ⟨mtPath, pdf_files, transaction_mapping, summary.matched_pairs.length, tempDir⟩)

/-! ## Sorting lemmas -/

theorem dateLt_irrefl (a : Date) : ¬ dateLt a a := by unfold dateLt; omega

theorem mem_insertByDate {y t : Transaction} :
    ∀ l : List Transaction, y ∈ insertByDate t l → y = t ∨ y ∈ l := by
  intro l
  induction l with
  | nil => intro h; simpa [insertByDate] using h
  | cons x xs ih =>
    intro h
    by_cases hlt : dateLtB x.date t.date
    · rw [insertByDate, if_pos hlt] at h
      rcases List.mem_cons.mp h with rfl | h
      · exact Or.inr (List.mem_cons_self _ _)
      · rcases ih h with h | h
        · exact Or.inl h
        · exact Or.inr (List.mem_cons_of_mem _ h)
    · rw [insertByDate, if_neg hlt] at h
      rcases List.mem_cons.mp h with rfl | h
      · exact Or.inl rfl
      · exact Or.inr h

theorem insertByDate_pairwise (t : Transaction) :
    ∀ l : List Transaction,
    l.Pairwise (fun a b => dateLe a.date b.date) →
    (insertByDate t l).Pairwise (fun a b => dateLe a.date b.date) := by
  intro l
  induction l with
  | nil => intro _; simp [insertByDate]
  | cons x xs ih =>
    intro hp
    rcases List.pairwise_cons.mp hp with ⟨hx, hxs⟩
    by_cases hlt : dateLtB x.date t.date
    · rw [insertByDate, if_pos hlt]
      refine List.pairwise_cons.mpr ⟨?_, ih hxs⟩
      intro y hy
      rcases mem_insertByDate xs hy with rfl | hy
      · exact dateLe_of_ltB hlt
      · exact hx y hy
    · rw [insertByDate, if_neg hlt]
      refine List.pairwise_cons.mpr ⟨?_, hp⟩
      intro y hy
      rcases List.mem_cons.mp hy with rfl | hy
      · exact dateLe_of_not_ltB (by simpa using hlt)
      · exact dateLe_trans (dateLe_of_not_ltB (by simpa using hlt)) (hx y hy)

theorem sortByDate_pairwise :
    ∀ l : List Transaction,
    (sortByDate l).Pairwise (fun a b => dateLe a.date b.date) := by
  intro l
  induction l with
  | nil => simp [sortByDate]
  | cons t ts ih => exact insertByDate_pairwise t (sortByDate ts) ih

theorem insertByDate_perm (t : Transaction) :
    ∀ l : List Transaction, (insertByDate t l).Perm (t :: l) := by
  intro l
  induction l with
  | nil => simp [insertByDate]
  | cons x xs ih =>
    by_cases hlt : dateLtB x.date t.date
    · rw [insertByDate, if_pos hlt]
      exact (ih.cons x).trans (List.Perm.swap t x xs)
    · rw [insertByDate, if_neg hlt]

theorem sortByDate_perm : ∀ l : List Transaction, (sortByDate l).Perm l := by
  intro l
  induction l with
  | nil => simp [sortByDate]
  | cons t ts ih => exact (insertByDate_perm t (sortByDate ts)).trans (ih.cons t)

theorem filter_insertByDate (t : Transaction) (d : Date) :
    ∀ l : List Transaction,
    (insertByDate t l).filter (fun x => decide (x.date = d)) =
      (if t.date = d then [t] else []) ++ l.filter (fun x => decide (x.date = d)) := by
  intro l
  induction l with
  | nil =>
    by_cases ht : t.date = d
    · simp [insertByDate, List.filter_cons, ht]
    · simp [insertByDate, List.filter_cons, ht]
  | cons x xs ih =>
    by_cases hlt : dateLtB x.date t.date
    · rw [insertByDate, if_pos hlt]
      by_cases hx : x.date = d
      · have hxt : ¬ t.date = d := by
          intro ht
          have := dateLe_of_ltB hlt
          unfold dateLtB dateLt at hlt
          simp only [decide_eq_true_eq] at hlt
          rw [hx, ht] at hlt
          exact dateLt_irrefl d (by unfold dateLt; omega)
        rw [List.filter_cons_of_pos (by simpa using hx), ih,
            List.filter_cons_of_pos (by simpa using hx), if_neg hxt]
        simp
      · rw [List.filter_cons_of_neg (by simpa using hx), ih,
            List.filter_cons_of_neg (by simpa using hx)]
    · rw [insertByDate, if_neg hlt]
      by_cases ht : t.date = d
      · rw [List.filter_cons_of_pos (by simpa using ht), if_pos ht]
        rfl
      · rw [List.filter_cons_of_neg (by simpa using ht), if_neg ht]
        rfl

theorem sortByDate_stable (d : Date) :
    ∀ l : List Transaction,
    (sortByDate l).filter (fun x => decide (x.date = d)) =
      l.filter (fun x => decide (x.date = d)) := by
  intro l
  induction l with
  | nil => rfl
  | cons t ts ih =>
    rw [sortByDate, filter_insertByDate, ih]
    by_cases ht : t.date = d
    · rw [if_pos ht, List.filter_cons_of_pos (by simpa using ht)]
      rfl
    · rw [if_neg ht, List.filter_cons_of_neg (by simpa using ht)]
      rfl

theorem generate_from_matches_ok (now : Date) (ms : List MatchResult) (out : Str)
    (h : ms ≠ []) :
    generate_from_matches now ms out =
      ([.makedirsE (dirName out),
        .writeFileE out (build_mt940_content now (sortByDate (ms.map (fun m => m.transaction))))],
       .ok out) := by
  cases ms with
  | nil => exact absurd rfl h
  | cons m ms => rfl

/-- C7: for a non-empty match list, `generate_from_matches` emits the
transaction lines in the order of the date-sorted record list, that list
is sorted by date ascending, and the sort is stable (records with equal
dates keep their input order: filtering the sorted list at any date gives
exactly the input sublist at that date). -/
theorem C7_generator_sorted_stable (now : Date) (ms : List MatchResult) (out : Str)
    (h : ms ≠ []) :
    generate_from_matches now ms out =
      ([.makedirsE (dirName out),
        .writeFileE out (build_mt940_content now (sortByDate (ms.map (fun m => m.transaction))))],
       .ok out) ∧
    (sortByDate (ms.map (fun m => m.transaction))).Pairwise
      (fun a b => dateLe a.date b.date) ∧
    ∀ d : Date,
      (sortByDate (ms.map (fun m => m.transaction))).filter (fun x => decide (x.date = d)) =
        (ms.map (fun m => m.transaction)).filter (fun x => decide (x.date = d)) :=
  ⟨generate_from_matches_ok now ms out h,
   sortByDate_pairwise _,
   fun d => sortByDate_stable d _⟩

def wM : MatchResult := mkMatchResult wT wI

def wNow : Date := ⟨2025, 6, 1⟩

def wOut : Str := "out/upload.STA".data

/-- Witness for C7 on the spec §8 scenario match. -/
theorem C7_generator_sorted_stable_witness :
    ([wM] ≠ []) ∧
    generate_from_matches wNow [wM] wOut =
      ([.makedirsE (dirName wOut),
        .writeFileE wOut (build_mt940_content wNow (sortByDate ([wM].map (fun m => m.transaction))))],
       .ok wOut) ∧
    (sortByDate ([wM].map (fun m => m.transaction))).Pairwise
      (fun a b => dateLe a.date b.date) ∧
    (sortByDate ([wM].map (fun m => m.transaction))).filter
        (fun x => decide (x.date = wT.date)) =
      ([wM].map (fun m => m.transaction)).filter (fun x => decide (x.date = wT.date)) :=
  ⟨by simp,
   (C7_generator_sorted_stable wNow [wM] wOut (by simp)).1,
   (C7_generator_sorted_stable wNow [wM] wOut (by simp)).2.1,
   (C7_generator_sorted_stable wNow [wM] wOut (by simp)).2.2 wT.date⟩

/-- C8: for a non-empty match list the opening-balance string is a zero
credit balance dated at the first (earliest) sorted record's date, and the
closing-balance string carries the D marker exactly when the exact cent
sum of the emitted amounts is negative (C otherwise) with the absolute sum
formatted comma-separated with two fraction digits; the generated line
list places these as the `:60F:` and `:62F:` lines around the transaction
lines. -/
theorem C8_balance_lines (now : Date) (ms : List MatchResult) (out : Str)
    (h : ms ≠ []) :
    generate_from_matches now ms out =
      ([.makedirsE (dirName out),
        .writeFileE out (joinNL (build_lines now (sortByDate (ms.map (fun m => m.transaction)))))],
       .ok out) ∧
    ∃ t0 rest,
      sortByDate (ms.map (fun m => m.transaction)) = t0 :: rest ∧
      (calculate_balances (t0 :: rest)).1 =
        ['C'] ++ yymmdd t0.date ++ "EUR0,00".data ∧
      (calculate_balances (t0 :: rest)).2 =
        (if ((ms.map (fun m => m.transaction.amount)).sum : Int) < 0 then ['D'] else ['C']) ++
          yymmdd t0.date ++ "EUR".data ++
          fmtCents ((ms.map (fun m : MatchResult => m.transaction.amount)).sum).natAbs ∧
      (∀ x ∈ sortByDate (ms.map (fun m => m.transaction)), dateLe t0.date x.date) ∧
      build_lines now (sortByDate (ms.map (fun m => m.transaction))) =
        generate_header now ++
        [":60F:".data ++ (calculate_balances (t0 :: rest)).1] ++
        ((t0 :: rest).flatMap (fun t => [generate_transaction_line t, generate_detail_line t])) ++
        [":62F:".data ++ (calculate_balances (t0 :: rest)).2] := by
  refine ⟨generate_from_matches_ok now ms out h, ?_⟩
  rcases hs : sortByDate (ms.map (fun m => m.transaction)) with _ | ⟨t0, rest⟩
  · exfalso
    have := (sortByDate_perm (ms.map (fun m => m.transaction))).length_eq
    rw [hs] at this
    simp only [List.length_nil, List.length_map] at this
    exact h (List.length_eq_zero.mp this.symm)
  · have hsum : ((t0 :: rest).map (fun x => x.amount)).sum =
        (ms.map (fun m => m.transaction.amount)).sum := by
      have hperm := sortByDate_perm (ms.map (fun m => m.transaction))
      rw [hs] at hperm
      have := (hperm.map (fun x => x.amount)).sum_eq
      rw [this, List.map_map]
      rfl
    refine ⟨t0, rest, hs, ?_, ?_, ?_, ?_⟩
    · have h0 : (calculate_balances (t0 :: rest)).1 =
          format_balance (yymmdd t0.date) 0 false := rfl
      rw [h0]
      unfold format_balance
      rw [if_neg (by simp)]
      simp only [List.append_assoc]
      congr 1
    · have h0 : (calculate_balances (t0 :: rest)).2 =
          format_balance (yymmdd t0.date)
            (((t0 :: rest).map (fun x : Transaction => x.amount)).sum).natAbs
            (decide ((((t0 :: rest).map (fun x => x.amount)).sum : Int) < 0)) := rfl
      rw [h0, hsum]
      unfold format_balance
      by_cases hneg : ((ms.map (fun m => m.transaction.amount)).sum : Int) < 0
      · rw [if_pos (by simpa using hneg), if_pos hneg]
      · rw [if_neg (by simpa using hneg), if_neg hneg]
    · intro x hx
      rw [hs] at hx
      rcases List.mem_cons.mp hx with rfl | hx
      · exact dateLe_refl _
      · have hp := sortByDate_pairwise (ms.map (fun m => m.transaction))
        rw [hs] at hp
        exact (List.pairwise_cons.mp hp).1 x hx
    · rw [hs]
      rfl

/-- Witness for C8 on the spec §8 scenario match. -/
theorem C8_balance_lines_witness :
    ([wM] ≠ []) ∧
    (generate_from_matches wNow [wM] wOut =
      ([.makedirsE (dirName wOut),
        .writeFileE wOut (joinNL (build_lines wNow (sortByDate ([wM].map (fun m => m.transaction)))))],
       .ok wOut) ∧
     ∃ t0 rest,
      sortByDate ([wM].map (fun m => m.transaction)) = t0 :: rest ∧
      (calculate_balances (t0 :: rest)).1 =
        ['C'] ++ yymmdd t0.date ++ "EUR0,00".data ∧
      (calculate_balances (t0 :: rest)).2 =
        (if (([wM].map (fun m => m.transaction.amount)).sum : Int) < 0 then ['D'] else ['C']) ++
          yymmdd t0.date ++ "EUR".data ++
          fmtCents (([wM].map (fun m : MatchResult => m.transaction.amount)).sum).natAbs ∧
      (∀ x ∈ sortByDate ([wM].map (fun m => m.transaction)), dateLe t0.date x.date) ∧
      build_lines wNow (sortByDate ([wM].map (fun m => m.transaction))) =
        generate_header wNow ++
        [":60F:".data ++ (calculate_balances (t0 :: rest)).1] ++
        ((t0 :: rest).flatMap (fun t => [generate_transaction_line t, generate_detail_line t])) ++
        [":62F:".data ++ (calculate_balances (t0 :: rest)).2]) :=
  ⟨by simp, C8_balance_lines wNow [wM] wOut (by simp)⟩

/-- C9: both `generate_from_matches` and `prepare_upload_data` fail with a
validation error on an empty match list, having performed no file-system
effect (no directory creation, no write). -/
theorem C9_empty_matches_validation :
    (∀ now out, generate_from_matches now [] out =
      ([], .error "No matched pairs provided for MT940 generation".data)) ∧
    (∀ now fsExists tempDir (summary : MatchingSummary) temp_base_dir,
      summary.matched_pairs = [] →
      prepare_upload_data now fsExists tempDir summary temp_base_dir =
        ([], .error "No matched pairs found in summary".data)) := by
  constructor
  · intro now out; rfl
  · intro now fsExists tempDir s temp_base_dir hempty
    unfold prepare_upload_data
    rw [if_pos (by simp [hempty])]

/-- Witness for C9 on a concrete empty summary. -/
theorem C9_empty_matches_validation_witness :
    ((⟨[], [], [], 0, 0, 0, 0⟩ : MatchingSummary).matched_pairs = []) ∧
    generate_from_matches wNow [] wOut =
      ([], .error "No matched pairs provided for MT940 generation".data) ∧
    prepare_upload_data wNow (fun _ => false) "tmpdir".data ⟨[], [], [], 0, 0, 0, 0⟩ none =
      ([], .error "No matched pairs found in summary".data) :=
  ⟨rfl, C9_empty_matches_validation.1 wNow wOut,
   C9_empty_matches_validation.2 wNow (fun _ => false) "tmpdir".data ⟨[], [], [], 0, 0, 0, 0⟩ none rfl⟩

/-! ## Statement parsing (round-trip direction)

`MT940Parser` delegates line-level decoding to the third-party `mt940`
library, which is not part of this repository; those pieces (`splitNL`,
`extractPairs`, `parse61`) are modelled from the spec's grammar (§4.1).
Everything downstream of the library — SEPA extraction, conversion,
deduplication, filtering — is this repository's code. -/

/-- `str.split("\n")` (inverse of `joinNL`). -/
def splitNL : Str → List Str
  | [] => [[]]
  | c :: cs =>
    match splitNL cs with
    | [] => [[c]]
    | r :: rs => if c = '\n' then [] :: r :: rs else (c :: r) :: rs

/-- Modelled from the spec: the mt940 library's statement splitting
(§4.1: a `:61:` transaction line "immediately followed by" a `:86:`
detail line); yields the `:61:` body paired with the `:86:` body. -/
def extractPairsAux : Option Str → List Str → List (Str × Str)
  | some b, [] => [(b, [])]
  | none, [] => []
  | some b, l :: ls =>
    if ":86:".data.isPrefixOf l then (b, l.drop 4) :: extractPairsAux none ls
    else (b, []) :: (if ":61:".data.isPrefixOf l
                     then extractPairsAux (some (l.drop 4)) ls
                     else extractPairsAux none ls)
  | none, l :: ls =>
    if ":61:".data.isPrefixOf l then extractPairsAux (some (l.drop 4)) ls
    else extractPairsAux none ls

def extractPairs (ls : List Str) : List (Str × Str) := extractPairsAux none ls

/-- Decimal digit-string value. -/
def parseNat (l : Str) : Nat := l.foldl (fun a c => a * 10 + digitVal c) 0

/-- Comma-decimal amount in cents (`Decimal` with `,` fraction separator,
as the grammar prescribes). -/
def parseCents (s : Str) : Nat :=
  let ip := s.takeWhile (fun c => c ≠ ',')
  let fp := s.drop (ip.length + 1)
  parseNat ip * 100 + parseNat fp

/-- Modelled from the spec: the mt940 library's `:61:` decoding (§4.1:
value date, 6-digit YYMMDD, mapped into the 2000s; optional book date,
present as a second 6-digit group; a `D`/`C` marker; the comma-decimal
amount; a transaction-type code — four characters in this grammar; and
the trailing reference token).  Returns (date, signed cents, reference);
`none` models the library failing on a malformed line. -/
def parse61Rest (d1 : Str) : Str → Option (Date × Int × Str)
  | [] => none
  | m :: r3 =>
    if m = 'D' ∨ m = 'C' then
      some (⟨2000 + parseNat (d1.take 2), parseNat ((d1.drop 2).take 2),
              parseNat (d1.drop 4)⟩,
            (if m = 'D'
             then -(parseCents (r3.takeWhile (fun c => Char.isDigit c || c = ',')) : Int)
             else (parseCents (r3.takeWhile (fun c => Char.isDigit c || c = ',')) : Int)),
            (r3.drop (r3.takeWhile (fun c => Char.isDigit c || c = ',')).length).drop 4)
    else none

def parse61 (body : Str) : Option (Date × Int × Str) :=
  if (body.take 6).length = 6 ∧ (body.take 6).all Char.isDigit then
    parse61Rest (body.take 6)
      (if ((body.drop 6).take 6).length = 6 ∧ ((body.drop 6).take 6).all Char.isDigit
       then (body.drop 6).drop 6 else body.drop 6)
  else none

/-- mt940_parser.py `_extract_sepa_fields` regex
`re.search(r"/TAG/([^/]+)/", description)`: leftmost occurrence of the
tag followed by a non-empty slash-free run terminated by a slash; the
captured group is stripped. -/
def findTagValue (tag : Str) : Str → Option Str
  | [] => none
  | c :: cs =>
    if tag.isPrefixOf (c :: cs) then
      let rest := (c :: cs).drop tag.length
      let run := rest.takeWhile (fun x => x ≠ '/')
      if run ≠ [] ∧ (rest.drop run.length).head? = some '/' then some (stripWs run)
      else findTagValue tag cs
    else findTagValue tag cs

/-- The three optional SEPA sub-fields extracted from a description. -/
structure SepaFields where
  nameF : Option Str
  remittanceF : Option Str
  ibanF : Option Str
deriving DecidableEq

/-- mt940_parser.py `_extract_sepa_fields` (lines 149-185): the three
tags are extracted independently. -/
def extract_sepa_fields (description : Str) : SepaFields :=
  ⟨findTagValue "/NAME/".data description,
   findTagValue "/REMI/".data description,
   findTagValue "/IBAN/".data description⟩

/-! transaction_filter.py `TransactionFilter` with its effective default
configuration: configs/settings.py `TIMING_CONFIG` has no
`transaction_filtering` entry, so `Config.get_timing_config` returns `{}`
and every option falls back to its default: enabled=True,
royal_canin_keywords=["ROYAL CANIN"], sip_pattern=`SIP\d{7,9}` (ignoring
case), require_both=True, case_sensitive=False. -/

/-- `_has_royal_canin` (lines 62-79): keyword found in the (uppercased)
counterparty name when that is truthy, else in the description. -/
def has_royal_canin (t : Transaction) : Bool :=
  (match t.counterparty_name with
   | some nm => if nm = [] then false else substrB "ROYAL CANIN".data (upperS nm)
   | none => false) ||
  substrB "ROYAL CANIN".data (upperS t.description)

/-- `re.search(r"SIP\d{7,9}", s, re.IGNORECASE)`: a match exists exactly
when at some position the three characters spell SIP case-insensitively
and at least seven digits follow (the 9-digit upper bound only limits the
matched span, never whether a match exists). -/
def hasSip : Str → Bool
  | [] => false
  | c :: cs =>
    (decide (upperS ((c :: cs).take 3) = "SIP".data) &&
     decide (7 ≤ (((c :: cs).drop 3).takeWhile Char.isDigit).length)) || hasSip cs

/-- `_has_sip_number` (lines 81-91). -/
def has_sip_number (t : Transaction) : Bool :=
  (match t.remittance_info with
   | some r => if r = [] then false else hasSip r
   | none => false) || hasSip t.description

/-- `should_include_transaction` (lines 32-60) under the default
configuration (enabled, require_both). -/
def should_include_transaction (t : Transaction) : Bool :=
  has_royal_canin t && has_sip_number t

/-- mt940_parser.py `_convert_mt940_transaction` (lines 93-147) applied to
one (`:61:` body, `:86:` body) pair: amount/date/reference from the
transaction line (with the hash-based fallback reference when the grammar
provides none — `hashFn` models Python's `hash`), description from the
stripped narrative with the `Transaction {reference}` fallback, SEPA
sub-fields extracted from the description, and the statement's account. -/
def convert_mt940_transaction (hashFn : Str → Nat) (account : Option Str)
    (p : Str × Str) : Option Transaction :=
  match parse61 p.1 with
  | none => none
  | some (date, amount, ref) =>
    let reference :=
      if ref = [] then
        "TXN_".data ++ natToStr date.year ++ pad2 date.month ++ pad2 date.day ++
        ['_'] ++ (List.replicate (4 - (natToStr (hashFn p.1 % 10000)).length) '0' ++
                  natToStr (hashFn p.1 % 10000))
      else ref
    let d0 := stripWs p.2
    let description := if d0 = [] then "Transaction ".data ++ reference else d0
    let sepa := extract_sepa_fields description
    some ⟨amount, description, date, reference, account,
          sepa.nameF, sepa.remittanceF, sepa.ibanF⟩

/-- `MT940Parser.parse` (lines 35-91) on in-memory content: split into
lines, take the account from the `:25:` line, pair the `:61:`/`:86:`
lines, convert each (failures are skipped), deduplicate, filter. -/
def mt940_parse_content (filt : Transaction → Bool) (hashFn : Str → Nat)
    (content : Str) : List Transaction :=
  let lines := splitNL content
  let account := (lines.find? (fun l => ":25:".data.isPrefixOf l)).map (fun l => l.drop 4)
  let pairs := extractPairs lines
  let converted := pairs.filterMap (convert_mt940_transaction hashFn account)
  (parse_loop filt converted []).2.1

/-! ## Digit-string lemmas -/

theorem digitChar_isDigit (k : Nat) : (digitChar k).isDigit = true := by
  unfold digitChar
  rcases k with _|_|_|_|_|_|_|_|_|k <;> rfl

theorem digitVal_digitChar {k : Nat} (h : k < 10) : digitVal (digitChar k) = k := by
  unfold digitChar digitVal
  rcases k with _|_|_|_|_|_|_|_|_|_|k <;> first | rfl | omega

theorem isDigit_ne_nl {c : Char} (h : c.isDigit = true) : c ≠ '\n' := by
  intro he; rw [he] at h; exact absurd h (by decide)

theorem isDigit_ne_comma {c : Char} (h : c.isDigit = true) : c ≠ ',' := by
  intro he; rw [he] at h; exact absurd h (by decide)

theorem isDigit_ne_slash {c : Char} (h : c.isDigit = true) : c ≠ '/' := by
  intro he; rw [he] at h; exact absurd h (by decide)

theorem isDigit_not_ws {c : Char} (h : c.isDigit = true) : isWsB c = false := by
  unfold isWsB
  rcases hc : decide (c = ' ') with _ | _
  · rcases h1 : decide (c = '\t') with _ | _
    · rcases h2 : decide (c = '\n') with _ | _
      · rcases h3 : decide (c = '\r') with _ | _
        · rfl
        · simp only [decide_eq_true_eq] at h3; rw [h3] at h; exact absurd h (by decide)
      · simp only [decide_eq_true_eq] at h2; rw [h2] at h; exact absurd h (by decide)
    · simp only [decide_eq_true_eq] at h1; rw [h1] at h; exact absurd h (by decide)
  · simp only [decide_eq_true_eq] at hc; rw [hc] at h; exact absurd h (by decide)

theorem natToStr_lt10 {n : Nat} (h : n < 10) : natToStr n = [digitChar n] := by
  unfold natToStr natToStrAux
  rw [if_pos h]

theorem natToStr_lt100 {n : Nat} (h1 : 10 ≤ n) (h2 : n < 100) :
    natToStr n = [digitChar (n / 10), digitChar (n % 10)] := by
  obtain ⟨m, rfl⟩ : ∃ m, n = m + 1 := ⟨n - 1, by omega⟩
  show natToStrAux (m + 2) (m + 1) = _
  rw [natToStrAux, if_neg (by omega), natToStrAux, if_pos (by omega)]
  rfl

theorem pad2_eq {n : Nat} (h : n < 100) :
    pad2 n = [digitChar (n / 10), digitChar (n % 10)] := by
  by_cases h10 : n < 10
  · unfold pad2
    rw [natToStr_lt10 h10, Nat.div_eq_of_lt h10, Nat.mod_eq_of_lt h10]
    rfl
  · unfold pad2
    rw [natToStr_lt100 (by omega) h]
    rfl

theorem natToStrAux_digits :
    ∀ (fuel n : Nat), n < fuel → ∀ c ∈ natToStrAux fuel n, c.isDigit = true := by
  intro fuel
  induction fuel with
  | zero => intro n h; omega
  | succ fuel ih =>
    intro n h c hc
    rw [natToStrAux] at hc
    by_cases h10 : n < 10
    · rw [if_pos h10] at hc
      rcases List.mem_singleton.mp hc with rfl
      exact digitChar_isDigit n
    · rw [if_neg h10] at hc
      rcases List.mem_append.mp hc with hc | hc
      · exact ih (n / 10) (by omega) c hc
      · rcases List.mem_singleton.mp hc with rfl
        exact digitChar_isDigit _

theorem natToStr_digits (n : Nat) : ∀ c ∈ natToStr n, c.isDigit = true :=
  natToStrAux_digits (n + 1) n (by omega)

theorem pad2_digits (n : Nat) : ∀ c ∈ pad2 n, c.isDigit = true := by
  intro c hc
  unfold pad2 at hc
  rcases List.mem_append.mp hc with hc | hc
  · rcases List.eq_of_mem_replicate hc with rfl
    decide
  · exact natToStr_digits n c hc

theorem parseNat_foldl :
    ∀ (fuel n acc : Nat), n < fuel →
    List.foldl (fun a c => a * 10 + digitVal c) acc (natToStrAux fuel n) =
      acc * 10 ^ (natToStrAux fuel n).length + n := by
  intro fuel
  induction fuel with
  | zero => intro n acc h; omega
  | succ fuel ih =>
    intro n acc h
    rw [natToStrAux]
    by_cases h10 : n < 10
    · rw [if_pos h10]
      simp only [List.foldl_cons, List.foldl_nil, List.length_singleton]
      rw [digitVal_digitChar h10]
      ring
    · rw [if_neg h10]
      rw [List.foldl_append]
      simp only [List.foldl_cons, List.foldl_nil, List.length_append,
        List.length_singleton]
      rw [ih (n / 10) acc (by omega)]
      rw [digitVal_digitChar (by omega)]
      have : 10 ^ ((natToStrAux fuel (n / 10)).length + 1) =
          10 ^ (natToStrAux fuel (n / 10)).length * 10 := by ring
      rw [this]
      have hmod : n / 10 * 10 + n % 10 = n := by omega
      ring_nf
      omega

theorem parseNat_natToStr (n : Nat) : parseNat (natToStr n) = n := by
  unfold parseNat natToStr
  rw [parseNat_foldl (n + 1) n 0 (by omega)]
  simp

theorem parseNat_pad2 {n : Nat} (h : n < 100) : parseNat (pad2 n) = n := by
  rw [pad2_eq h]
  unfold parseNat
  simp only [List.foldl_cons, List.foldl_nil]
  rw [digitVal_digitChar (by omega), digitVal_digitChar (by omega)]
  omega

/-- Dates representable in the grammar's two-digit-year format. -/
def ValidDate (d : Date) : Prop :=
  2000 ≤ d.year ∧ d.year < 2100 ∧ d.month < 100 ∧ d.day < 100

instance (d : Date) : Decidable (ValidDate d) := by unfold ValidDate; infer_instance

theorem yymmdd_eq {d : Date} (h : ValidDate d) :
    yymmdd d = [digitChar (d.year % 100 / 10), digitChar (d.year % 100 % 10),
                digitChar (d.month / 10), digitChar (d.month % 10),
                digitChar (d.day / 10), digitChar (d.day % 10)] := by
  unfold yymmdd
  rw [pad2_eq (Nat.mod_lt _ (by omega)), pad2_eq h.2.2.1, pad2_eq h.2.2.2]
  rfl

theorem takeWhile_append_stop {p : Char → Bool} :
    ∀ (A : Str) {b : Char} (B : Str), (∀ c ∈ A, p c = true) → p b = false →
    (A ++ b :: B).takeWhile p = A := by
  intro A
  induction A with
  | nil => intro b B _ hb; simp [List.takeWhile_cons, hb]
  | cons a A ih =>
    intro b B hA hb
    rw [List.cons_append, List.takeWhile_cons, hA a (by simp), if_pos rfl,
        ih B (fun c hc => hA c (List.mem_cons_of_mem _ hc)) hb]

theorem drop_len_cons (A : Str) (b : Char) (B : Str) :
    (A ++ b :: B).drop (A.length + 1) = B := by
  have : A ++ b :: B = (A ++ [b]) ++ B := by simp
  rw [this]
  have hl : A.length + 1 = (A ++ [b]).length := by simp
  rw [hl, List.drop_left]

theorem fmtCents_chars (n : Nat) :
    ∀ c ∈ fmtCents n, (c.isDigit || c = ',') = true := by
  intro c hc
  unfold fmtCents at hc
  rcases List.mem_append.mp hc with hc | hc
  · rcases List.mem_append.mp hc with hc | hc
    · simp [natToStr_digits _ c hc]
    · rcases List.mem_singleton.mp hc with rfl
      simp
  · simp [pad2_digits _ c hc]

theorem parseCents_fmtCents (n : Nat) : parseCents (fmtCents n) = n := by
  have h1 : (natToStr (n / 100) ++ [','] ++ pad2 (n % 100)) =
      natToStr (n / 100) ++ ',' :: pad2 (n % 100) := by simp
  simp only [parseCents, fmtCents, h1]
  rw [takeWhile_append_stop (natToStr (n / 100)) (pad2 (n % 100))
    (fun c hc => by simp [isDigit_ne_comma (natToStr_digits _ c hc)]) (by simp)]
  rw [drop_len_cons]
  rw [parseNat_natToStr, parseNat_pad2 (Nat.mod_lt _ (by omega))]
  omega

theorem parseNat_two {a b : Nat} (ha : a < 10) (hb : b < 10) :
    parseNat [digitChar a, digitChar b] = a * 10 + b := by
  unfold parseNat
  simp only [List.foldl_cons, List.foldl_nil]
  rw [digitVal_digitChar ha, digitVal_digitChar hb]
  ring

theorem parse61_shape (y2 m2 d2 : Nat) (hy : y2 < 100) (hm : m2 < 100) (hd : d2 < 100)
    (mk : Char) (hmk : mk = 'D' ∨ mk = 'C') (cents : Nat) (ref : Str) :
    parse61 ((pad2 y2 ++ pad2 m2 ++ pad2 d2) ++ ((pad2 y2 ++ pad2 m2 ++ pad2 d2) ++
             mk :: (fmtCents cents ++ ("N249".data ++ ref)))) =
      some (⟨2000 + y2, m2, d2⟩,
            (if mk = 'D' then -(cents : Int) else (cents : Int)), ref) := by
  rw [pad2_eq hy, pad2_eq hm, pad2_eq hd]
  simp only [List.cons_append, List.nil_append]
  unfold parse61
  simp only [show ∀ X : Str,
      List.drop 6 (digitChar (y2 / 10) :: digitChar (y2 % 10) :: digitChar (m2 / 10) ::
        digitChar (m2 % 10) :: digitChar (d2 / 10) :: digitChar (d2 % 10) :: X) = X
      from fun _ => rfl,
    show ∀ X : Str,
      List.take 6 (digitChar (y2 / 10) :: digitChar (y2 % 10) :: digitChar (m2 / 10) ::
        digitChar (m2 % 10) :: digitChar (d2 / 10) :: digitChar (d2 % 10) :: X) =
      [digitChar (y2 / 10), digitChar (y2 % 10), digitChar (m2 / 10),
       digitChar (m2 % 10), digitChar (d2 / 10), digitChar (d2 % 10)]
      from fun _ => rfl]
  have hc : ([digitChar (y2 / 10), digitChar (y2 % 10), digitChar (m2 / 10),
      digitChar (m2 % 10), digitChar (d2 / 10), digitChar (d2 % 10)] : Str).length = 6 ∧
      ([digitChar (y2 / 10), digitChar (y2 % 10), digitChar (m2 / 10),
        digitChar (m2 % 10), digitChar (d2 / 10), digitChar (d2 % 10)] : Str).all
        Char.isDigit = true :=
    ⟨rfl, by simp [digitChar_isDigit]⟩
  rw [if_pos hc, if_pos hc]
  simp only [parse61Rest]
  rw [if_pos hmk]
  rw [takeWhile_append_stop (fmtCents cents) ('2' :: '4' :: '9' :: ref)
    (fmtCents_chars cents) (by decide)]
  rw [List.drop_left]
  rw [show ('N' :: '2' :: '4' :: '9' :: ref).drop 4 = ref from rfl]
  rw [parseCents_fmtCents]
  rw [show ([digitChar (y2 / 10), digitChar (y2 % 10), digitChar (m2 / 10),
       digitChar (m2 % 10), digitChar (d2 / 10), digitChar (d2 % 10)] : Str).take 2 =
      [digitChar (y2 / 10), digitChar (y2 % 10)] from rfl]
  rw [show (([digitChar (y2 / 10), digitChar (y2 % 10), digitChar (m2 / 10),
       digitChar (m2 % 10), digitChar (d2 / 10), digitChar (d2 % 10)] : Str).drop 2).take 2 =
      [digitChar (m2 / 10), digitChar (m2 % 10)] from rfl]
  rw [show ([digitChar (y2 / 10), digitChar (y2 % 10), digitChar (m2 / 10),
       digitChar (m2 % 10), digitChar (d2 / 10), digitChar (d2 % 10)] : Str).drop 4 =
      [digitChar (d2 / 10), digitChar (d2 % 10)] from rfl]
  rw [parseNat_two (by omega) (by omega), parseNat_two (by omega) (by omega),
      parseNat_two (by omega) (by omega)]
  have e1 : y2 / 10 * 10 + y2 % 10 = y2 := by omega
  have e2 : m2 / 10 * 10 + m2 % 10 = m2 := by omega
  have e3 : d2 / 10 * 10 + d2 % 10 = d2 := by omega
  rw [e1, e2, e3]

theorem parse61_gen (t : Transaction) (hvd : ValidDate t.date) (href : t.reference ≠ []) :
    parse61 ((generate_transaction_line t).drop 4) =
      some (t.date, t.amount, t.reference) := by
  have hmk : ∀ X : Str,
      (if t.amount < 0 then ['D'] else ['C']) ++ X =
      (if t.amount < 0 then 'D' else 'C') :: X := by
    intro X
    by_cases h : t.amount < 0 <;> simp [h]
  have hb : (generate_transaction_line t).drop 4 =
      (pad2 (t.date.year % 100) ++ (pad2 t.date.month ++ (pad2 t.date.day ++
      (pad2 (t.date.year % 100) ++ (pad2 t.date.month ++ (pad2 t.date.day ++
       (if t.amount < 0 then 'D' else 'C') ::
         (fmtCents t.amount.natAbs ++ ("N249".data ++ t.reference)))))))) := by
    unfold generate_transaction_line yymmdd
    rw [if_neg href]
    simp only [List.append_assoc]
    rw [show ∀ X : Str, List.drop 4 (":61:".data ++ X) = X from fun _ => rfl]
    rw [hmk]
  rw [hb]
  have hx := parse61_shape (t.date.year % 100) t.date.month t.date.day
    (Nat.mod_lt _ (by omega)) hvd.2.2.1 hvd.2.2.2
    (if t.amount < 0 then 'D' else 'C')
    (by by_cases h : t.amount < 0 <;> simp [h])
    t.amount.natAbs t.reference
  simp only [List.append_assoc] at hx
  rw [hx]
  have h1 : 2000 + t.date.year % 100 = t.date.year := by
    have h2 := hvd.1
    have h3 := hvd.2.1
    omega
  have hdate : (⟨2000 + t.date.year % 100, t.date.month, t.date.day⟩ : Date) = t.date := by
    rw [h1]
  have hamt : (if (if t.amount < 0 then 'D' else 'C') = 'D'
      then -(t.amount.natAbs : Int) else (t.amount.natAbs : Int)) = t.amount := by
    by_cases h : t.amount < 0
    · rw [if_pos h, if_pos rfl]
      omega
    · rw [if_neg h, if_neg (by decide)]
      omega
  rw [hdate, hamt]

/-! ## Tag-scan lemmas for `findTagValue` -/

theorem isPrefixOf_self_append (l X : Str) : l.isPrefixOf (l ++ X) = true :=
  List.isPrefixOf_iff_prefix.mpr (List.prefix_append l X)

theorem isPrefixOf_eq_false {l1 l2 : Str} (h : ¬ l1 <+: l2) : l1.isPrefixOf l2 = false :=
  Bool.eq_false_iff.mpr (fun hb => h (List.isPrefixOf_iff_prefix.mp hb))

theorem findTag_cons_neg (tag : Str) (c : Char) (cs : Str)
    (h : ¬ tag <+: (c :: cs)) :
    findTagValue tag (c :: cs) = findTagValue tag cs := by
  rw [findTagValue]
  rw [isPrefixOf_eq_false h]
  rfl

/-- The scan skips over a slash-free run (the tag starts with a slash, so
no match can begin inside the run). -/
theorem findTag_skip_run (w : Str) :
    ∀ (u rest : Str), (∀ c ∈ u, c ≠ '/') →
    findTagValue ('/' :: (w ++ ['/'])) (u ++ rest) =
      findTagValue ('/' :: (w ++ ['/'])) rest := by
  intro u
  induction u with
  | nil => intro rest _; rfl
  | cons c u2 ih =>
    intro rest hu
    rw [List.cons_append]
    rw [findTag_cons_neg _ c (u2 ++ rest) (fun hp => by
      rcases List.cons_prefix_cons.mp hp with ⟨he, _⟩
      exact hu c (List.mem_cons_self _ _) he.symm)]
    exact ih rest (fun x hx => hu x (List.mem_cons_of_mem _ hx))

/-- Two slash-delimited words starting at the same position agree. -/
theorem slashfree_prefix_eq :
    ∀ (u u' X Y : Str), (∀ c ∈ u, c ≠ '/') → (∀ c ∈ u', c ≠ '/') →
    (u ++ '/' :: X) <+: (u' ++ '/' :: Y) → u = u' := by
  intro u
  induction u with
  | nil =>
    intro u' X Y _ hu' hp
    cases u' with
    | nil => rfl
    | cons b u2 =>
      exfalso
      rw [List.nil_append, List.cons_append] at hp
      rcases List.cons_prefix_cons.mp hp with ⟨he, _⟩
      exact hu' b (List.mem_cons_self _ _) he.symm
  | cons a u2 ih =>
    intro u' X Y hu hu' hp
    cases u' with
    | nil =>
      exfalso
      rw [List.cons_append, List.nil_append] at hp
      rcases List.cons_prefix_cons.mp hp with ⟨he, _⟩
      exact hu a (List.mem_cons_self _ _) he
    | cons b u2' =>
      rw [List.cons_append, List.cons_append] at hp
      rcases List.cons_prefix_cons.mp hp with ⟨he, hp2⟩
      rw [he, ih u2' X Y (fun x hx => hu x (List.mem_cons_of_mem _ hx))
        (fun x hx => hu' x (List.mem_cons_of_mem _ hx)) hp2]

/-- One unfolding of the scan on a cons cell. -/
theorem findTagValue_cons (tag : Str) (c : Char) (cs : Str) :
    findTagValue tag (c :: cs) =
      if tag.isPrefixOf (c :: cs) then
        (if ((c :: cs).drop tag.length).takeWhile (fun x => x ≠ '/') ≠ [] ∧
            (((c :: cs).drop tag.length).drop
              (((c :: cs).drop tag.length).takeWhile (fun x => x ≠ '/')).length).head? =
              some '/'
         then some (stripWs (((c :: cs).drop tag.length).takeWhile (fun x => x ≠ '/')))
         else findTagValue tag cs)
      else findTagValue tag cs := rfl

/-- Evaluating the scan at an exact tag occurrence. -/
theorem findTag_self_append (w X : Str) :
    findTagValue ('/' :: (w ++ ['/'])) (('/' :: (w ++ ['/'])) ++ X) =
      if (X.takeWhile (fun x => x ≠ '/')) ≠ [] ∧
         (X.drop (X.takeWhile (fun x => x ≠ '/')).length).head? = some '/'
      then some (stripWs (X.takeWhile (fun x => x ≠ '/')))
      else findTagValue ('/' :: (w ++ ['/'])) ((w ++ ['/']) ++ X) := by
  rw [show (('/' :: (w ++ ['/'])) ++ X) = '/' :: ((w ++ ['/']) ++ X) from rfl]
  rw [findTagValue_cons]
  rw [show ('/' :: (w ++ ['/'])).length = (w ++ ['/']).length + 1 from rfl]
  rw [List.drop_succ_cons, List.drop_left]
  rw [if_pos (show ('/' :: (w ++ ['/'])).isPrefixOf ('/' :: ((w ++ ['/']) ++ X)) = true
    from isPrefixOf_self_append ('/' :: (w ++ ['/'])) X)]

/-- A scan finds an exact tag occurrence with a well-formed value. -/
theorem findTag_hit (w v R : Str) (hv : ∀ c ∈ v, c ≠ '/') (hvne : v ≠ []) :
    findTagValue ('/' :: (w ++ ['/'])) (('/' :: (w ++ ['/'])) ++ (v ++ '/' :: R)) =
      some (stripWs v) := by
  rw [findTag_self_append]
  rw [takeWhile_append_stop v R (fun c hc => by simp [hv c hc]) (by simp)]
  rw [List.drop_left]
  rw [if_pos ⟨hvne, rfl⟩]

/-- One `/WORD/value` chunk of the generated `:86:` narrative. -/
def segStr (segs : List (Str × Str)) : Str :=
  segs.flatMap (fun q => '/' :: (q.1 ++ '/' :: q.2))

/-- Well-formedness of a narrative chunk relative to the searched word
`w`: slash-free word and value, non-empty value, and a value that does
not itself spell the searched word (which would fabricate a tag). -/
def goodSeg (w : Str) (q : Str × Str) : Prop :=
  (∀ c ∈ q.1, c ≠ '/') ∧ (∀ c ∈ q.2, c ≠ '/') ∧ q.2 ≠ [] ∧ q.2 ≠ w

/-- The scan passes over one chunk whose word is not the searched one. -/
theorem findTag_seg_skip (w w' v Z Y : Str)
    (hw : ∀ c ∈ w, c ≠ '/') (hw' : ∀ c ∈ w', c ≠ '/') (hv : ∀ c ∈ v, c ≠ '/')
    (hne : w' ≠ w) (hvw : v ≠ w) (hZ : Z = '/' :: Y) :
    findTagValue ('/' :: (w ++ ['/'])) (('/' :: (w' ++ '/' :: v)) ++ Z) =
      findTagValue ('/' :: (w ++ ['/'])) Z := by
  subst hZ
  rw [show (('/' :: (w' ++ '/' :: v)) ++ '/' :: Y) =
      '/' :: (w' ++ '/' :: (v ++ '/' :: Y)) from by simp]
  rw [findTag_cons_neg _ '/' _ (fun hp => by
    rcases List.cons_prefix_cons.mp hp with ⟨_, hp2⟩
    exact hne (slashfree_prefix_eq w w' [] (v ++ '/' :: Y) hw hw' hp2).symm)]
  rw [findTag_skip_run w w' _ hw']
  rw [findTag_cons_neg _ '/' _ (fun hp => by
    rcases List.cons_prefix_cons.mp hp with ⟨_, hp2⟩
    exact hvw (slashfree_prefix_eq w v [] Y hw hv hp2).symm)]
  rw [findTag_skip_run w v _ hv]

/-- The scan over a chunk list followed by a slash-headed remainder finds
exactly the first chunk carrying the searched word. -/
theorem findTag_segs (w : Str) (hw : ∀ c ∈ w, c ≠ '/') :
    ∀ (segs : List (Str × Str)) (Z Y : Str), Z = '/' :: Y →
    (∀ q ∈ segs, goodSeg w q) →
    findTagValue ('/' :: (w ++ ['/'])) (segStr segs ++ Z) =
      (match segs.find? (fun q => decide (q.1 = w)) with
       | some q => some (stripWs q.2)
       | none => findTagValue ('/' :: (w ++ ['/'])) Z) := by
  intro segs
  induction segs with
  | nil =>
    intro Z Y hZ _
    simp [segStr]
  | cons q rest ih =>
    intro Z Y hZ hg
    rcases q with ⟨qw, qv⟩
    have hgq := hg ⟨qw, qv⟩ (List.mem_cons_self _ _)
    have hexp : segStr (⟨qw, qv⟩ :: rest) ++ Z =
        ('/' :: (qw ++ '/' :: qv)) ++ (segStr rest ++ Z) := by
      simp [segStr]
    rw [hexp]
    have hZ2 : ∃ Y2, segStr rest ++ Z = '/' :: Y2 := by
      cases rest with
      | nil => exact ⟨Y, by simp [segStr, hZ]⟩
      | cons r rs =>
        exact ⟨(r.1 ++ '/' :: r.2) ++ (segStr rs ++ Z), by simp [segStr]⟩
    obtain ⟨Y2, hY2⟩ := hZ2
    by_cases hqw : qw = w
    · rw [List.find?_cons_of_pos _ (by simp [hqw])]
      subst hqw
      rw [hY2]
      rw [show ('/' :: (qw ++ '/' :: qv)) ++ '/' :: Y2 =
          ('/' :: (qw ++ ['/'])) ++ (qv ++ '/' :: Y2) from by simp]
      exact findTag_hit qw qv Y2 hgq.2.1 hgq.2.2.1
    · rw [List.find?_cons_of_neg _ (by simp [hqw])]
      rw [findTag_seg_skip w qw qv _ Y2 hw hgq.1 hgq.2.1 hqw hgq.2.2.2 hY2]
      exact ih Z Y hZ (fun x hx => hg x (List.mem_cons_of_mem _ hx))

/-- The scan finds nothing in the trailing `/EREF/reference` chunk. -/
theorem findTag_tail_none (w ref : Str) (hw : ∀ c ∈ w, c ≠ '/')
    (hne : "EREF".data ≠ w) (href : ∀ c ∈ ref, c ≠ '/') :
    findTagValue ('/' :: (w ++ ['/'])) ('/' :: ("EREF".data ++ '/' :: ref)) = none := by
  rw [findTag_cons_neg _ '/' _ (fun hp => by
    rcases List.cons_prefix_cons.mp hp with ⟨_, hp2⟩
    exact hne (slashfree_prefix_eq w "EREF".data [] ref hw (by decide) hp2).symm)]
  rw [findTag_skip_run w "EREF".data _ (by decide)]
  rw [findTag_cons_neg _ '/' _ (fun hp => by
    rcases List.cons_prefix_cons.mp hp with ⟨_, hp2⟩
    have hmem : '/' ∈ ref := hp2.subset (by simp)
    exact href '/' hmem rfl)]
  rw [show ref = ref ++ ([] : Str) from by simp]
  rw [findTag_skip_run w ref [] (by
    intro c hc
    exact href c (by simpa using hc))]
  rfl

/-! ## Strip lemmas and record well-formedness -/

theorem length_dropWhile_le (p : Char → Bool) (l : Str) :
    (l.dropWhile p).length ≤ l.length :=
  (List.dropWhile_suffix p).sublist.length_le

theorem dropWhile_length_lt {p : Char → Bool} {l : Str} {c : Char}
    (hh : l.head? = some c) (hc : p c = true) :
    (l.dropWhile p).length < l.length := by
  cases l with
  | nil => simp at hh
  | cons a t =>
    injection hh with hh
    subst hh
    rw [List.dropWhile_cons, if_pos hc]
    have := length_dropWhile_le p t
    simp only [List.length_cons]
    omega

theorem stripWs_length_le (s : Str) : (stripWs s).length ≤ (s.dropWhile isWsB).length := by
  unfold stripWs
  rw [List.length_reverse]
  calc ((s.dropWhile isWsB).reverse.dropWhile isWsB).length
      ≤ (s.dropWhile isWsB).reverse.length := length_dropWhile_le _ _
    _ = (s.dropWhile isWsB).length := List.length_reverse _

theorem stripWs_head {s : Str} {c : Char} (hself : stripWs s = s)
    (hh : s.head? = some c) : isWsB c = false := by
  by_cases hc : isWsB c = true
  · exfalso
    have h1 := dropWhile_length_lt hh hc
    have h2 := stripWs_length_le s
    rw [hself] at h2
    omega
  · simpa using hc

theorem stripWs_getLast {s : Str} {c : Char} (hself : stripWs s = s)
    (hh : s.getLast? = some c) : isWsB c = false := by
  cases s with
  | nil => simp at hh
  | cons a t =>
    by_cases ha : isWsB a = true
    · exfalso
      have h1 := dropWhile_length_lt (l := a :: t) (by rfl) ha
      have h2 := stripWs_length_le (a :: t)
      rw [hself] at h2
      omega
    · by_cases hc : isWsB c = true
      · exfalso
        have hd : (a :: t).dropWhile isWsB = a :: t := by
          rw [List.dropWhile_cons, if_neg (by simpa using ha)]
        have hrh : (a :: t).reverse.head? = some c := by
          rw [List.head?_reverse]
          exact hh
        have h1 := dropWhile_length_lt hrh hc
        have h2 : (stripWs (a :: t)).length ≤
            ((a :: t).reverse.dropWhile isWsB).length := by
          unfold stripWs
          rw [hd, List.length_reverse]
        rw [hself] at h2
        rw [List.length_reverse] at h1
        omega
      · simpa using hc

theorem stripWs_eq_self_edges {s : Str}
    (h1 : ∀ c, s.head? = some c → isWsB c = false)
    (h2 : ∀ c, s.getLast? = some c → isWsB c = false) : stripWs s = s := by
  cases s with
  | nil => rfl
  | cons a t =>
    have hd : (a :: t).dropWhile isWsB = a :: t := by
      rw [List.dropWhile_cons, if_neg (by simp [h1 a rfl])]
    unfold stripWs
    rw [hd]
    rcases hr : (a :: t).reverse with _ | ⟨b, rb⟩
    · exfalso
      have : (a :: t).reverse ≠ [] := by simp
      exact this hr
    · have hb : (a :: t).getLast? = some b := by
        rw [← List.head?_reverse, hr]
        rfl
      rw [List.dropWhile_cons, if_neg (by simp [h2 b hb])]
      rw [← hr, List.reverse_reverse]

theorem getLast?_append_right {A B : Str} (h : B ≠ []) :
    (A ++ B).getLast? = B.getLast? := by
  rw [← List.head?_reverse, ← List.head?_reverse, List.reverse_append]
  rcases hb : B.reverse with _ | ⟨x, xs⟩
  · exfalso
    exact h (by simpa using congrArg List.reverse hb)
  · simp

/-- Well-formedness of one SEPA value for the round trip: non-empty,
strip-invariant, free of slashes and newlines, and not spelling another
tag word. -/
def goodValB (v : Str) : Bool :=
  decide (v ≠ []) && decide (stripWs v = v) && decide ('/' ∉ v) && decide ('\n' ∉ v) &&
  decide (v ≠ "NAME".data) && decide (v ≠ "REMI".data) && decide (v ≠ "IBAN".data)

def goodOptB : Option Str → Bool
  | none => true
  | some v => goodValB v

def goodRefB (r : Str) : Bool :=
  decide (r ≠ []) && decide (stripWs r = r) && decide ('/' ∉ r) && decide ('\n' ∉ r)

/-- Round-trip well-formedness of a record: a representable date, a
well-formed reference, a counterparty name carrying the business
filter's keyword, a remittance info carrying a SIP invoice number, and a
well-formed optional IBAN. -/
def goodRecordB (t : Transaction) : Bool :=
  decide (ValidDate t.date) && goodRefB t.reference &&
  (match t.counterparty_name with
   | some nm => goodValB nm && substrB "ROYAL CANIN".data (upperS nm)
   | none => false) &&
  (match t.remittance_info with
   | some r => goodValB r && hasSip r
   | none => false) &&
  goodOptB t.counterparty_iban

/-- The word/value chunks that `_generate_detail_line` emits before the
`/EREF/` part. -/
def optSeg (w : Str) (v : Option Str) : List (Str × Str) :=
  match v with
  | some s => if s = [] then [] else [(w, s)]
  | none => []

def segsOf (t : Transaction) : List (Str × Str) :=
  ("TRTP".data, "SEPA INCASSO BEDRIJVEN DOORLOPEND".data) ::
  (optSeg "NAME".data t.counterparty_name ++ optSeg "REMI".data t.remittance_info ++
   optSeg "IBAN".data t.counterparty_iban)

/-- The generated `:86:` body decomposes into the tag chunks followed by
the `/EREF/reference` tail. -/
theorem detail_body_decomp (t : Transaction) (href : t.reference ≠ []) :
    (generate_detail_line t).drop 4 =
      segStr (segsOf t) ++ ('/' :: ("EREF".data ++ '/' :: t.reference)) := by
  unfold generate_detail_line segsOf optSeg optTag
  rw [if_neg href]
  rcases hnm : t.counterparty_name with _ | nm <;>
    rcases hre : t.remittance_info with _ | re <;>
    rcases hib : t.counterparty_iban with _ | ib <;>
    simp only [segStr, List.flatMap_cons, List.flatMap_nil] <;>
    (try split_ifs) <;>
    simp [List.append_assoc]

theorem goodValB_parts {v : Str} (h : goodValB v = true) :
    v ≠ [] ∧ stripWs v = v ∧ ('/' ∉ v) ∧ ('\n' ∉ v) ∧
    v ≠ "NAME".data ∧ v ≠ "REMI".data ∧ v ≠ "IBAN".data := by
  unfold goodValB at h
  simp only [Bool.and_eq_true, decide_eq_true_eq] at h
  obtain ⟨⟨⟨⟨⟨⟨h1, h2⟩, h3⟩, h4⟩, h5⟩, h6⟩, h7⟩ := h
  exact ⟨h1, h2, h3, h4, h5, h6, h7⟩

theorem goodRefB_parts {r : Str} (h : goodRefB r = true) :
    r ≠ [] ∧ stripWs r = r ∧ ('/' ∉ r) ∧ ('\n' ∉ r) := by
  unfold goodRefB at h
  simp only [Bool.and_eq_true, decide_eq_true_eq] at h
  obtain ⟨⟨⟨h1, h2⟩, h3⟩, h4⟩ := h
  exact ⟨h1, h2, h3, h4⟩

theorem goodRecordB_parts {t : Transaction} (h : goodRecordB t = true) :
    ValidDate t.date ∧ goodRefB t.reference = true ∧
    (∃ nm, t.counterparty_name = some nm ∧ goodValB nm = true ∧
      substrB "ROYAL CANIN".data (upperS nm) = true) ∧
    (∃ r, t.remittance_info = some r ∧ goodValB r = true ∧ hasSip r = true) ∧
    goodOptB t.counterparty_iban = true := by
  unfold goodRecordB at h
  simp only [Bool.and_eq_true, decide_eq_true_eq] at h
  obtain ⟨⟨⟨⟨hd, hr⟩, hnm⟩, hre⟩, hib⟩ := h
  refine ⟨hd, hr, ?_, ?_, hib⟩
  · rcases he : t.counterparty_name with _ | nm
    · rw [he] at hnm
      simp at hnm
    · rw [he] at hnm
      simp only [Bool.and_eq_true] at hnm
      exact ⟨nm, rfl, hnm.1, hnm.2⟩
  · rcases he : t.remittance_info with _ | r
    · rw [he] at hre
      simp at hre
    · rw [he] at hre
      simp only [Bool.and_eq_true] at hre
      exact ⟨r, rfl, hre.1, hre.2⟩

theorem not_mem_slashfree {v : Str} (h : '/' ∉ v) : ∀ c ∈ v, c ≠ '/' :=
  fun _ hc he => h (he ▸ hc)

/-- All chunks of a good record's narrative are well-formed for each of
the three searched tag words. -/
theorem segsOf_good (t : Transaction) (h : goodRecordB t = true) :
    ∀ w, (w = "NAME".data ∨ w = "REMI".data ∨ w = "IBAN".data) →
    ∀ q ∈ segsOf t, goodSeg w q := by
  obtain ⟨_, _, ⟨nm, hnm, hnmv, _⟩, ⟨re, hre, hrev, _⟩, hib⟩ := goodRecordB_parts h
  have hnmp := goodValB_parts hnmv
  have hrep := goodValB_parts hrev
  intro w hw q hq
  have hval : (∀ c ∈ q.1, c ≠ '/') ∧ (∀ c ∈ q.2, c ≠ '/') ∧ q.2 ≠ [] ∧
      q.2 ≠ "NAME".data ∧ q.2 ≠ "REMI".data ∧ q.2 ≠ "IBAN".data := by
    unfold segsOf at hq
    rcases List.mem_cons.mp hq with rfl | hq
    · exact ⟨by decide, by decide, by decide, by decide, by decide, by decide⟩
    · rcases List.mem_append.mp hq with hq | hq
      · rcases List.mem_append.mp hq with hq | hq
        · rw [hnm] at hq
          simp only [optSeg] at hq
          rw [if_neg hnmp.1] at hq
          rcases List.mem_singleton.mp hq with rfl
          exact ⟨(by decide : ∀ c ∈ ("NAME".data : Str), c ≠ '/'),
            not_mem_slashfree hnmp.2.2.1, hnmp.1,
            hnmp.2.2.2.2.1, hnmp.2.2.2.2.2.1, hnmp.2.2.2.2.2.2⟩
        · rw [hre] at hq
          simp only [optSeg] at hq
          rw [if_neg hrep.1] at hq
          rcases List.mem_singleton.mp hq with rfl
          exact ⟨(by decide : ∀ c ∈ ("REMI".data : Str), c ≠ '/'),
            not_mem_slashfree hrep.2.2.1, hrep.1,
            hrep.2.2.2.2.1, hrep.2.2.2.2.2.1, hrep.2.2.2.2.2.2⟩
      · rcases hibe : t.counterparty_iban with _ | ib
        · rw [hibe] at hq
          simp [optSeg] at hq
        · rw [hibe] at hq
          unfold goodOptB at hib
          rw [hibe] at hib
          have hibp := goodValB_parts hib
          simp only [optSeg] at hq
          rw [if_neg hibp.1] at hq
          rcases List.mem_singleton.mp hq with rfl
          exact ⟨(by decide : ∀ c ∈ ("IBAN".data : Str), c ≠ '/'),
            not_mem_slashfree hibp.2.2.1, hibp.1,
            hibp.2.2.2.2.1, hibp.2.2.2.2.2.1, hibp.2.2.2.2.2.2⟩
  rcases hw with rfl | rfl | rfl
  · exact ⟨hval.1, hval.2.1, hval.2.2.1, hval.2.2.2.1⟩
  · exact ⟨hval.1, hval.2.1, hval.2.2.1, hval.2.2.2.2.1⟩
  · exact ⟨hval.1, hval.2.1, hval.2.2.1, hval.2.2.2.2.2⟩

theorem extract_gen (t : Transaction) (h : goodRecordB t = true) :
    extract_sepa_fields ((generate_detail_line t).drop 4) =
      ⟨t.counterparty_name, t.remittance_info, t.counterparty_iban⟩ := by
  obtain ⟨hvd, hrefB, ⟨nm, hnm, hnmv, hrc⟩, ⟨re, hre, hrev, hsip⟩, hib⟩ :=
    goodRecordB_parts h
  have hrefp := goodRefB_parts hrefB
  have hnmp := goodValB_parts hnmv
  have hrep := goodValB_parts hrev
  have hdec := detail_body_decomp t hrefp.1
  have htail : ∀ w, (w = "NAME".data ∨ w = "REMI".data ∨ w = "IBAN".data) →
      findTagValue ('/' :: (w ++ ['/'])) ('/' :: ("EREF".data ++ '/' :: t.reference)) = none := by
    intro w hw
    refine findTag_tail_none w t.reference ?_ ?_ (not_mem_slashfree hrefp.2.2.1)
    · rcases hw with rfl | rfl | rfl <;> decide
    · rcases hw with rfl | rfl | rfl <;> decide
  rcases hibe : t.counterparty_iban with _ | ib
  · have hseg : segsOf t =
        [("TRTP".data, "SEPA INCASSO BEDRIJVEN DOORLOPEND".data),
         ("NAME".data, nm), ("REMI".data, re)] := by
      simp only [segsOf, optSeg, hnm, hre, hibe]
      rw [if_neg hnmp.1, if_neg hrep.1]
      rfl
    unfold extract_sepa_fields
    rw [hdec]
    rw [show ("/NAME/".data : Str) = '/' :: ("NAME".data ++ ['/']) from rfl,
        show ("/REMI/".data : Str) = '/' :: ("REMI".data ++ ['/']) from rfl,
        show ("/IBAN/".data : Str) = '/' :: ("IBAN".data ++ ['/']) from rfl]
    rw [findTag_segs "NAME".data (by decide) (segsOf t) _
          ("EREF".data ++ '/' :: t.reference) rfl (segsOf_good t h _ (Or.inl rfl)),
        findTag_segs "REMI".data (by decide) (segsOf t) _
          ("EREF".data ++ '/' :: t.reference) rfl (segsOf_good t h _ (Or.inr (Or.inl rfl))),
        findTag_segs "IBAN".data (by decide) (segsOf t) _
          ("EREF".data ++ '/' :: t.reference) rfl (segsOf_good t h _ (Or.inr (Or.inr rfl)))]
    rw [hseg]
    rw [List.find?_cons_of_neg _ (by simp), List.find?_cons_of_pos _ (by simp)]
    rw [List.find?_cons_of_neg _ (by simp), List.find?_cons_of_neg _ (by simp),
        List.find?_cons_of_pos _ (by simp)]
    rw [List.find?_cons_of_neg _ (by simp), List.find?_cons_of_neg _ (by simp),
        List.find?_cons_of_neg _ (by simp)]
    rw [htail "IBAN".data (Or.inr (Or.inr rfl))]
    show SepaFields.mk (some (stripWs nm)) (some (stripWs re)) none = _
    rw [hnmp.2.1, hrep.2.1, hnm, hre]
  · have hibv : goodValB ib = true := by
      have := hib
      unfold goodOptB at this
      rw [hibe] at this
      exact this
    have hibp := goodValB_parts hibv
    have hseg : segsOf t =
        [("TRTP".data, "SEPA INCASSO BEDRIJVEN DOORLOPEND".data),
         ("NAME".data, nm), ("REMI".data, re), ("IBAN".data, ib)] := by
      simp only [segsOf, optSeg, hnm, hre, hibe]
      rw [if_neg hnmp.1, if_neg hrep.1, if_neg hibp.1]
      rfl
    unfold extract_sepa_fields
    rw [hdec]
    rw [show ("/NAME/".data : Str) = '/' :: ("NAME".data ++ ['/']) from rfl,
        show ("/REMI/".data : Str) = '/' :: ("REMI".data ++ ['/']) from rfl,
        show ("/IBAN/".data : Str) = '/' :: ("IBAN".data ++ ['/']) from rfl]
    rw [findTag_segs "NAME".data (by decide) (segsOf t) _
          ("EREF".data ++ '/' :: t.reference) rfl (segsOf_good t h _ (Or.inl rfl)),
        findTag_segs "REMI".data (by decide) (segsOf t) _
          ("EREF".data ++ '/' :: t.reference) rfl (segsOf_good t h _ (Or.inr (Or.inl rfl))),
        findTag_segs "IBAN".data (by decide) (segsOf t) _
          ("EREF".data ++ '/' :: t.reference) rfl (segsOf_good t h _ (Or.inr (Or.inr rfl)))]
    rw [hseg]
    rw [List.find?_cons_of_neg _ (by simp), List.find?_cons_of_pos _ (by simp)]
    rw [List.find?_cons_of_neg _ (by simp), List.find?_cons_of_neg _ (by simp),
        List.find?_cons_of_pos _ (by simp)]
    rw [List.find?_cons_of_neg _ (by simp), List.find?_cons_of_neg _ (by simp),
        List.find?_cons_of_neg _ (by simp), List.find?_cons_of_pos _ (by simp)]
    show SepaFields.mk (some (stripWs nm)) (some (stripWs re)) (some (stripWs ib)) = _
    rw [hnmp.2.1, hrep.2.1, hibp.2.1, hnm, hre]

set_option maxHeartbeats 1000000 in
theorem convert_gen (hashFn : Str → Nat) (acct : Option Str) (t : Transaction)
    (h : goodRecordB t = true) :
    convert_mt940_transaction hashFn acct
      ((generate_transaction_line t).drop 4, (generate_detail_line t).drop 4) =
      some ⟨t.amount, (generate_detail_line t).drop 4, t.date, t.reference, acct,
            t.counterparty_name, t.remittance_info, t.counterparty_iban⟩ := by
  obtain ⟨hvd, hrefB, hnmE, hreE, hibE⟩ := goodRecordB_parts h
  have hrefp := goodRefB_parts hrefB
  have h61 := parse61_gen t hvd hrefp.1
  have hdec := detail_body_decomp t hrefp.1
  have hh : ((generate_detail_line t).drop 4).head? = some '/' := by rw [hdec]; rfl
  have hbody_ne : (generate_detail_line t).drop 4 ≠ [] := by
    intro he
    rw [he] at hh
    simp at hh
  have hre2 : (generate_detail_line t).drop 4 =
      (segStr (segsOf t) ++ ('/' :: ("EREF".data ++ ['/']))) ++ t.reference := by
    rw [hdec]
    simp [List.append_assoc]
  have hlast : ∀ c, ((generate_detail_line t).drop 4).getLast? = some c → isWsB c = false := by
    intro c hc
    rw [hre2, getLast?_append_right hrefp.1] at hc
    exact stripWs_getLast hrefp.2.1 hc
  have hstrip : stripWs ((generate_detail_line t).drop 4) = (generate_detail_line t).drop 4 :=
    stripWs_eq_self_edges
      (fun c hc => by
        rw [hh] at hc
        injection hc with hc
        subst hc
        decide)
      hlast
  unfold convert_mt940_transaction
  rw [h61]
  simp only [hstrip]
  rw [if_neg hrefp.1, if_neg hbody_ne]
  rw [extract_gen t h]

/-! ## Line splitting -/

theorem splitNL_ne_nil : ∀ s : Str, splitNL s ≠ [] := by
  intro s
  induction s with
  | nil => simp [splitNL]
  | cons c cs ih =>
    simp only [splitNL]
    rcases hr : splitNL cs with _ | ⟨r, rs⟩
    · simp
    · by_cases hc : c = '\n' <;> simp [hc]

theorem splitNL_no_nl : ∀ l : Str, '\n' ∉ l → splitNL l = [l] := by
  intro l
  induction l with
  | nil => intro _; rfl
  | cons c cs ih =>
    intro h
    have hc : c ≠ '\n' := fun he => h (he ▸ List.mem_cons_self c cs)
    have hcs : '\n' ∉ cs := fun hm => h (List.mem_cons_of_mem _ hm)
    simp only [splitNL, ih hcs]
    rw [if_neg hc]

theorem splitNL_append (l rest : Str) (h : '\n' ∉ l) :
    splitNL (l ++ '\n' :: rest) = l :: splitNL rest := by
  induction l with
  | nil =>
    simp only [List.nil_append, splitNL]
    rcases hr : splitNL rest with _ | ⟨r, rs⟩
    · exact absurd hr (splitNL_ne_nil rest)
    · simp
  | cons c l2 ih =>
    have hc : c ≠ '\n' := fun he => h (he ▸ List.mem_cons_self c l2)
    have hl2 : '\n' ∉ l2 := fun hm => h (List.mem_cons_of_mem _ hm)
    rw [List.cons_append]
    simp only [splitNL, ih hl2]
    rw [if_neg hc]

theorem joinNL_split : ∀ lines : List Str, lines ≠ [] →
    (∀ l ∈ lines, '\n' ∉ l) → splitNL (joinNL lines) = lines := by
  intro lines
  induction lines with
  | nil => intro h; exact absurd rfl h
  | cons l ls ih =>
    intro _ hnl
    cases ls with
    | nil => exact splitNL_no_nl l (hnl l (List.mem_cons_self _ _))
    | cons l2 ls2 =>
      show splitNL (l ++ '\n' :: joinNL (l2 :: ls2)) = _
      rw [splitNL_append l _ (hnl l (List.mem_cons_self _ _))]
      rw [ih (by simp) (fun x hx => hnl x (List.mem_cons_of_mem _ hx))]

/-! ## No generated line contains a newline -/

theorem nl_pad2 (n : Nat) : '\n' ∉ pad2 n :=
  fun h => isDigit_ne_nl (pad2_digits n _ h) rfl

theorem nl_yymmdd (d : Date) : '\n' ∉ yymmdd d := by
  intro h
  unfold yymmdd at h
  rcases List.mem_append.mp h with h | h
  · rcases List.mem_append.mp h with h | h
    · exact nl_pad2 _ h
    · exact nl_pad2 _ h
  · exact nl_pad2 _ h

theorem nl_fmtCents (n : Nat) : '\n' ∉ fmtCents n := by
  intro h
  have := fmtCents_chars n _ h
  simp at this

theorem nl_format_balance (ds : Str) (c : Nat) (b : Bool) (hds : '\n' ∉ ds) :
    '\n' ∉ format_balance ds c b := by
  intro h
  unfold format_balance at h
  rcases List.mem_append.mp h with h | h
  · rcases List.mem_append.mp h with h | h
    · rcases List.mem_append.mp h with h | h
      · cases b <;> simp at h
      · exact hds h
    · simp at h
  · exact nl_fmtCents _ h

theorem nl_balances (ts : List Transaction) :
    '\n' ∉ (calculate_balances ts).1 ∧ '\n' ∉ (calculate_balances ts).2 := by
  cases ts with
  | nil => constructor <;> decide
  | cons t rest =>
    constructor
    · exact nl_format_balance _ _ _ (nl_yymmdd t.date)
    · exact nl_format_balance _ _ _ (nl_yymmdd t.date)

theorem nl_transaction_line (t : Transaction) (h : '\n' ∉ t.reference) :
    '\n' ∉ generate_transaction_line t := by
  intro hm
  unfold generate_transaction_line at hm
  rcases List.mem_append.mp hm with hm | hm
  · rcases List.mem_append.mp hm with hm | hm
    · rcases List.mem_append.mp hm with hm | hm
      · rcases List.mem_append.mp hm with hm | hm
        · rcases List.mem_append.mp hm with hm | hm
          · rcases List.mem_append.mp hm with hm | hm
            · simp at hm
            · exact nl_yymmdd _ hm
          · exact nl_yymmdd _ hm
        · by_cases hs : t.amount < 0
          · rw [if_pos hs] at hm; simp at hm
          · rw [if_neg hs] at hm; simp at hm
      · exact nl_fmtCents _ hm
    · simp at hm
  · by_cases hr : t.reference = []
    · rw [if_pos hr] at hm; simp at hm
    · rw [if_neg hr] at hm; exact h hm

theorem nl_segStr (segs : List (Str × Str))
    (h : ∀ q ∈ segs, '\n' ∉ q.1 ∧ '\n' ∉ q.2) : '\n' ∉ segStr segs := by
  intro hm
  unfold segStr at hm
  rcases List.mem_flatMap.mp hm with ⟨q, hq, hm⟩
  rcases List.mem_cons.mp hm with he | hm
  · exact absurd he.symm (by decide)
  · rcases List.mem_append.mp hm with hm | hm
    · exact (h q hq).1 hm
    · rcases List.mem_cons.mp hm with he | hm
      · exact absurd he.symm (by decide)
      · exact (h q hq).2 hm

theorem nl_detail_line (t : Transaction) (hg : goodRecordB t = true) :
    '\n' ∉ generate_detail_line t := by
  obtain ⟨hvd, hrefB, ⟨nm, hnm, hnmv, _⟩, ⟨re, hre, hrev, _⟩, hib⟩ := goodRecordB_parts hg
  have hrefp := goodRefB_parts hrefB
  have hdec := detail_body_decomp t hrefp.1
  have hsegs : ∀ q ∈ segsOf t, '\n' ∉ q.1 ∧ '\n' ∉ q.2 := by
    intro q hq
    unfold segsOf at hq
    rcases List.mem_cons.mp hq with rfl | hq
    · exact ⟨by decide, by decide⟩
    · rcases List.mem_append.mp hq with hq | hq
      · rcases List.mem_append.mp hq with hq | hq
        · rw [hnm] at hq
          simp only [optSeg] at hq
          rw [if_neg (goodValB_parts hnmv).1] at hq
          rcases List.mem_singleton.mp hq with rfl
          exact ⟨(by decide : ('\n' : Char) ∉ (['N', 'A', 'M', 'E'] : Str)),
                 (goodValB_parts hnmv).2.2.2.1⟩
        · rw [hre] at hq
          simp only [optSeg] at hq
          rw [if_neg (goodValB_parts hrev).1] at hq
          rcases List.mem_singleton.mp hq with rfl
          exact ⟨(by decide : ('\n' : Char) ∉ (['R', 'E', 'M', 'I'] : Str)),
                 (goodValB_parts hrev).2.2.2.1⟩
      · rcases hibe : t.counterparty_iban with _ | ib
        · rw [hibe] at hq
          simp [optSeg] at hq
        · have hibv : goodValB ib = true := by
            have h2 := hib
            unfold goodOptB at h2
            rw [hibe] at h2
            exact h2
          rw [hibe] at hq
          simp only [optSeg] at hq
          rw [if_neg (goodValB_parts hibv).1] at hq
          rcases List.mem_singleton.mp hq with rfl
          exact ⟨(by decide : ('\n' : Char) ∉ (['I', 'B', 'A', 'N'] : Str)),
                 (goodValB_parts hibv).2.2.2.1⟩
  intro hm
  rw [← List.take_append_drop 4 (generate_detail_line t)] at hm
  rcases List.mem_append.mp hm with hm | hm
  · rw [show (generate_detail_line t).take 4 = ":86:".data from rfl] at hm
    simp at hm
  · rw [hdec] at hm
    rcases List.mem_append.mp hm with hm | hm
    · exact nl_segStr _ hsegs hm
    · rcases List.mem_cons.mp hm with he | hm
      · exact absurd he.symm (by decide)
      · rcases List.mem_append.mp hm with hm | hm
        · simp at hm
        · rcases List.mem_cons.mp hm with he | hm
          · exact absurd he.symm (by decide)
          · exact hrefp.2.2.2 hm

theorem build_lines_nl (now : Date) (ts : List Transaction)
    (hg : ∀ t ∈ ts, goodRecordB t = true) :
    ∀ l ∈ build_lines now ts, '\n' ∉ l := by
  intro l hl
  unfold build_lines at hl
  rcases List.mem_append.mp hl with hl | hl
  · rcases List.mem_append.mp hl with hl | hl
    · rcases List.mem_append.mp hl with hl | hl
      · simp only [generate_header, List.mem_cons, List.not_mem_nil, or_false] at hl
        rcases hl with rfl | rfl | rfl | rfl | rfl | rfl
        · decide
        · decide
        · decide
        · decide
        · decide
        · intro hm
          rcases List.mem_append.mp hm with hm | hm
          · rcases List.mem_append.mp hm with hm | hm
            · rcases List.mem_append.mp hm with hm | hm
              · simp at hm
              · exact nl_pad2 _ hm
            · exact nl_pad2 _ hm
          · simp at hm
      · rcases List.mem_singleton.mp hl with rfl
        intro hm
        rcases List.mem_append.mp hm with hm | hm
        · simp at hm
        · exact (nl_balances ts).1 hm
    · rcases List.mem_flatMap.mp hl with ⟨t, ht, hl⟩
      have hgt := hg t ht
      simp only [List.mem_cons, List.not_mem_nil, or_false] at hl
      rcases hl with rfl | rfl
      · exact nl_transaction_line t (goodRefB_parts (goodRecordB_parts hgt).2.1).2.2.2
      · exact nl_detail_line t hgt
  · rcases List.mem_singleton.mp hl with rfl
    intro hm
    rcases List.mem_append.mp hm with hm | hm
    · simp at hm
    · exact (nl_balances ts).2 hm

/-! ## Pairing the generated lines -/

/-- The (`:61:` body, `:86:` body) pair generated for one transaction. -/
def genPair (t : Transaction) : Str × Str :=
  ((generate_transaction_line t).drop 4, (generate_detail_line t).drop 4)

/-- The transaction the parser rebuilds from a generated pair: amount,
date and reference from the `:61:` line, the `:86:` body as description,
the generator's hard-coded account, and the SEPA sub-fields re-extracted
from the narrative. -/
def convGen (t : Transaction) : Transaction :=
  ⟨t.amount, (generate_detail_line t).drop 4, t.date, t.reference, some "438661141".data,
   t.counterparty_name, t.remittance_info, t.counterparty_iban⟩

/-- The record fields the round-trip property compares: amount, date,
reference, and the three optional SEPA sub-fields. -/
def roundTripView (t : Transaction) : Int × Date × Str × Option Str × Option Str × Option Str :=
  (t.amount, t.date, t.reference, t.counterparty_name, t.remittance_info, t.counterparty_iban)

/-- One splitter step on a line that does not open a transaction. -/
theorem extractPairsAux_skip (l : Str) (ls : List Str)
    (h : ":61:".data.isPrefixOf l = false) :
    extractPairsAux none (l :: ls) = extractPairsAux none ls := by
  simp only [extractPairsAux, h, Bool.false_eq_true, if_false]

/-- One splitter step on a `:61:` line: its body becomes the pending
transaction body. -/
theorem extractPairsAux_61 (l b : Str) (ls : List Str) (h : l = ":61:".data ++ b) :
    extractPairsAux none (l :: ls) = extractPairsAux (some b) ls := by
  subst h
  have hd : (":61:".data ++ b).drop 4 = b := List.drop_left ":61:".data b
  simp only [extractPairsAux, isPrefixOf_self_append, eq_self_iff_true, if_true, hd]

/-- One splitter step on a `:86:` line while a transaction is pending:
the pair is emitted. -/
theorem extractPairsAux_86 (l b v : Str) (ls : List Str) (h : l = ":86:".data ++ v) :
    extractPairsAux (some b) (l :: ls) = (b, v) :: extractPairsAux none ls := by
  subst h
  have hd : (":86:".data ++ v).drop 4 = v := List.drop_left ":86:".data v
  simp only [extractPairsAux, isPrefixOf_self_append, eq_self_iff_true, if_true, hd]

theorem extractPairsAux_flat (tail : List Str) (htail : extractPairsAux none tail = []) :
    ∀ ts : List Transaction,
    extractPairsAux none
      (ts.flatMap (fun t => [generate_transaction_line t, generate_detail_line t]) ++ tail) =
      ts.map genPair := by
  intro ts
  induction ts with
  | nil => simpa using htail
  | cons t ts ih =>
    have h61 : generate_transaction_line t =
        ":61:".data ++ (generate_transaction_line t).drop 4 := by
      have h := List.take_append_drop 4 (generate_transaction_line t)
      rw [show (generate_transaction_line t).take 4 = ":61:".data from rfl] at h
      exact h.symm
    have h86 : generate_detail_line t =
        ":86:".data ++ (generate_detail_line t).drop 4 := by
      have h := List.take_append_drop 4 (generate_detail_line t)
      rw [show (generate_detail_line t).take 4 = ":86:".data from rfl] at h
      exact h.symm
    simp only [List.flatMap_cons, List.cons_append, List.nil_append, List.append_assoc]
    rw [extractPairsAux_61 _ _ _ h61, extractPairsAux_86 _ _ _ _ h86, ih]
    rfl

/-- The mt940 statement splitter applied to the generated line list yields
exactly the per-transaction (`:61:` body, `:86:` body) pairs: header and
balance lines carry neither tag. -/
theorem extractPairs_build (now : Date) (ts : List Transaction) :
    extractPairs (build_lines now ts) = ts.map genPair := by
  have hshape : build_lines now ts =
      "ABNANL2A".data :: "940".data :: "ABNANL2A".data ::
      ":20:MATCHED TRANSACTIONS".data :: ":25:438661141".data ::
      (":28:".data ++ pad2 (now.year % 100) ++ pad2 now.month ++ "/1".data) ::
      (":60F:".data ++ (calculate_balances ts).1) ::
      (ts.flatMap (fun t => [generate_transaction_line t, generate_detail_line t]) ++
       [":62F:".data ++ (calculate_balances ts).2]) := by
    simp [build_lines, generate_header]
  show extractPairsAux none (build_lines now ts) = _
  rw [hshape,
      extractPairsAux_skip "ABNANL2A".data _ rfl,
      extractPairsAux_skip "940".data _ rfl,
      extractPairsAux_skip "ABNANL2A".data _ rfl,
      extractPairsAux_skip ":20:MATCHED TRANSACTIONS".data _ rfl,
      extractPairsAux_skip ":25:438661141".data _ rfl,
      extractPairsAux_skip
        (":28:".data ++ pad2 (now.year % 100) ++ pad2 now.month ++ "/1".data) _ rfl,
      extractPairsAux_skip (":60F:".data ++ (calculate_balances ts).1) _ rfl]
  refine extractPairsAux_flat [":62F:".data ++ (calculate_balances ts).2] ?_ ts
  rw [extractPairsAux_skip (":62F:".data ++ (calculate_balances ts).2) [] rfl]
  rfl

/-! ## Assembling the round trip -/

theorem filterMap_map_some {α β γ : Type} (f : α → β) (g : β → Option γ) (h : α → γ) :
    ∀ l : List α, (∀ x ∈ l, g (f x) = some (h x)) → (l.map f).filterMap g = l.map h := by
  intro l
  induction l with
  | nil => intro _; rfl
  | cons x xs ih =>
    intro hx
    rw [List.map_cons, List.map_cons, List.filterMap_cons, hx x (List.mem_cons_self _ _),
        ih (fun y hy => hx y (List.mem_cons_of_mem _ hy))]

theorem map_ext_mem {α β : Type} (f g : α → β) :
    ∀ l : List α, (∀ x ∈ l, f x = g x) → l.map f = l.map g := by
  intro l
  induction l with
  | nil => intro _; rfl
  | cons x xs ih =>
    intro hx
    rw [List.map_cons, List.map_cons, hx x (List.mem_cons_self _ _),
        ih (fun y hy => hx y (List.mem_cons_of_mem _ hy))]

/-- When all composite keys are distinct and every record passes the
filter, the parse loop returns its input unchanged. -/
theorem parse_loop_pass (filt : Transaction → Bool) (l : List Transaction)
    (hnd : (l.map dedupKey).Nodup) (hf : ∀ t ∈ l, filt t = true) :
    (parse_loop filt l []).2.1 = l := by
  rw [parse_loop_filtered, parse_loop_all_eq_dedup,
      dedupByKey_fixed l [] hnd (fun k _ => List.not_mem_nil k)]
  exact List.filter_eq_self.mpr hf

/-- A transaction with a nonempty ROYAL CANIN counterparty name and a
nonempty SIP-numbered remittance passes the default filter. -/
theorem good_filter (t : Transaction) {nm re : Str}
    (hnm : t.counterparty_name = some nm) (hnme : nm ≠ [])
    (hrc : substrB "ROYAL CANIN".data (upperS nm) = true)
    (hre : t.remittance_info = some re) (hree : re ≠ []) (hsip : hasSip re = true) :
    should_include_transaction t = true := by
  unfold should_include_transaction has_royal_canin has_sip_number
  rw [hnm, hre]
  simp [hnme, hree, hrc, hsip]

/-- Parsing the generated content of a list of well-formed,
pairwise-key-distinct records reproduces exactly those records (account
rewritten to the generator's hard-coded one, the `:86:` body as
description, everything the claim mentions unchanged). -/
theorem parse_of_generated (now : Date) (hashFn : Str → Nat) (l : List Transaction)
    (hgl : ∀ t ∈ l, goodRecordB t = true)
    (hnd : (l.map dedupKey).Nodup) :
    mt940_parse_content should_include_transaction hashFn (build_mt940_content now l) =
      l.map convGen := by
  have hbne : build_lines now l ≠ [] := by
    simp [build_lines, generate_header]
  have hsplit : splitNL (build_mt940_content now l) = build_lines now l :=
    joinNL_split _ hbne (build_lines_nl now l hgl)
  have hacct : ((build_lines now l).find? (fun ln => ":25:".data.isPrefixOf ln)).map
      (fun ln => ln.drop 4) = some "438661141".data := rfl
  have hknd : ((l.map convGen).map dedupKey).Nodup := by
    rw [List.map_map, map_ext_mem (dedupKey ∘ convGen) dedupKey l (fun t _ => rfl)]
    exact hnd
  have hfilt : ∀ t2 ∈ l.map convGen, should_include_transaction t2 = true := by
    intro t2 ht2
    rcases List.mem_map.mp ht2 with ⟨t, ht, rfl⟩
    obtain ⟨_, _, ⟨nm, hnm, hnmv, hrc⟩, ⟨re, hre, hrev, hsip⟩, _⟩ :=
      goodRecordB_parts (hgl t ht)
    exact good_filter (convGen t) hnm (goodValB_parts hnmv).1 hrc hre
      (goodValB_parts hrev).1 hsip
  simp only [mt940_parse_content]
  rw [hsplit, hacct, extractPairs_build]
  rw [filterMap_map_some genPair
      (convert_mt940_transaction hashFn (some "438661141".data)) convGen l
      (fun t ht => convert_gen hashFn (some "438661141".data) t (hgl t ht))]
  exact parse_loop_pass _ _ hknd hfilt

/-! ## Claim C2 -/

/-- **C2** (corrected): for every non-empty match list whose matched
records are well-formed for the generator grammar (valid two-digit date
components; a nonempty, slash- and newline-free, strip-invariant
reference; a nonempty ROYAL CANIN counterparty name and a SIP-numbered
remittance info, both well-formed narrative values, and a well-formed
optional IBAN) and whose (date, amount, reference) keys are pairwise
distinct, `generate_from_matches` writes the MT940 content built from the
date-sorted matched records, and feeding that content back through the
parser reproduces each matched record's amount, date and reference
exactly and reconstructs exactly the SEPA sub-fields present on the
original record (absent sub-fields stay absent).  The well-formedness
hypotheses are needed: the parser's default Royal-Canin/SIP filter drops
any other record (see the counterexample). -/
theorem C2_round_trip (now : Date) (ms : List MatchResult) (out : Str) (hashFn : Str → Nat)
    (hne : ms ≠ [])
    (hg : ∀ m ∈ ms, goodRecordB m.transaction = true)
    (hnd : ((ms.map (fun m => m.transaction)).map dedupKey).Nodup) :
    generate_from_matches now ms out =
      ([.makedirsE (dirName out),
        .writeFileE out
          (build_mt940_content now (sortByDate (ms.map (fun m => m.transaction))))],
       .ok out) ∧
    (mt940_parse_content should_include_transaction hashFn
        (build_mt940_content now (sortByDate (ms.map (fun m => m.transaction))))).map
        roundTripView =
      (sortByDate (ms.map (fun m => m.transaction))).map roundTripView := by
  refine ⟨generate_from_matches_ok now ms out hne, ?_⟩
  have hperm := sortByDate_perm (ms.map (fun m => m.transaction))
  have hgl : ∀ t ∈ sortByDate (ms.map (fun m => m.transaction)), goodRecordB t = true := by
    intro t ht
    rcases List.mem_map.mp (hperm.mem_iff.mp ht) with ⟨m, hm, rfl⟩
    exact hg m hm
  have hlnd : ((sortByDate (ms.map (fun m => m.transaction))).map dedupKey).Nodup :=
    ((hperm.map dedupKey).nodup_iff).mpr hnd
  rw [parse_of_generated now hashFn _ hgl hlnd, List.map_map,
      map_ext_mem (roundTripView ∘ convGen) roundTripView _ (fun t _ => rfl)]

set_option maxRecDepth 10000 in
set_option maxHeartbeats 1000000 in
/-- Counterexample to C2 as stated: the spec §8 scenario record (no SEPA
sub-fields, no ROYAL CANIN name, no SIP number) is matched by reconcile,
the generator writes its file, but the parser's default transaction
filter drops the record, so the parse of the generated file is empty and
reproduces nothing. -/
theorem C2_round_trip_counterexample :
    (∃ s, match_transactions_to_invoices [wT] [wI] = .ok s ∧ s.matched_pairs = [wM]) ∧
    generate_from_matches wNow [wM] wOut =
      ([.makedirsE (dirName wOut),
        .writeFileE wOut
          (build_mt940_content wNow (sortByDate ([wM].map (fun m => m.transaction))))],
       .ok wOut) ∧
    mt940_parse_content should_include_transaction (fun _ => 0)
      (build_mt940_content wNow (sortByDate ([wM].map (fun m => m.transaction)))) = [] := by
  refine ⟨⟨_, matcher_ok [wT] [wI], ?_⟩,
          generate_from_matches_ok wNow [wM] wOut (by simp), ?_⟩
  · decide
  · decide

/-- The repo test suite's Royal Canin sample record. -/
def w2T : Transaction :=
  ⟨-17729, "SEPA INCASSO BEDRIJVEN DOORLOPEND".data, ⟨2025, 4, 7⟩, "INC25015736".data,
   some "438661141".data, some "ROYAL CANIN NEDERLAND B.".data, some "SIP25024251".data,
   some "NL11RABO0154634638".data⟩

def w2M : MatchResult := mkMatchResult w2T wI

theorem C2_round_trip_witness :
    ([w2M] ≠ []) ∧ (∀ m ∈ [w2M], goodRecordB m.transaction = true) ∧
    ((([w2M].map (fun m => m.transaction)).map dedupKey).Nodup) ∧
    (generate_from_matches wNow [w2M] wOut =
      ([.makedirsE (dirName wOut),
        .writeFileE wOut
          (build_mt940_content wNow (sortByDate ([w2M].map (fun m => m.transaction))))],
       .ok wOut) ∧
    (mt940_parse_content should_include_transaction (fun _ => 0)
        (build_mt940_content wNow (sortByDate ([w2M].map (fun m => m.transaction))))).map
        roundTripView =
      (sortByDate ([w2M].map (fun m => m.transaction))).map roundTripView) :=
  ⟨by simp, by decide, by decide,
   C2_round_trip wNow [w2M] wOut (fun _ => 0) (by simp) (by decide) (by decide)⟩
